import Mathlib

/-!
# Verification of the session-transcript analysis engine

Shallow embedding of the transcript parser (`graphiti_integration.py`,
class `TranscriptParser`) and the session analyzer (`session_analyzer.py`,
class `SessionAnalyzer`), together with theorems settling the frozen
claims about them.

JSON-shaped Python values are modelled by the inductive type `PyVal`;
Python operations that can raise (`.get` on a non-dict, `.lower()` on a
non-string, unhashable dict keys, ...) are modelled in the
`Except String` monad, mirroring the `try`/`except` structure of the
source.  Machine floats appearing in `success_rate` and
`session_duration` are modelled exactly as IEEE binary64 values
(mantissa/exponent pairs with round-to-nearest, ties-to-even), since
CPython's `int.__truediv__` and float arithmetic are correctly rounded
binary64 operations.
-/

set_option maxRecDepth 4000

/-! ## Character-list text primitives shared by parser and analyzer -/

/-- Does `hay` start with `needle`? (character lists) -/
def startsWithChars : List Char → List Char → Bool
  | [], _ => true
  | _ :: _, [] => false
  | a :: as, b :: bs => a == b && startsWithChars as bs

/-- Python's `needle in hay` substring test on character lists
(the empty needle is contained in every string). -/
def hasSubChars (needle : List Char) : List Char → Bool
  | [] => needle.isEmpty
  | c :: rest => startsWithChars needle (c :: rest) || hasSubChars needle rest

/-- Python's `needle in hay` on strings. -/
def strHasSub (hay needle : String) : Bool :=
  hasSubChars needle.data hay.data

/-- The whitespace characters recognised by `str.split()` / `str.strip()`
(the ASCII subset; transcript text and all fixed vocabularies are ASCII). -/
def isPySpace (c : Char) : Bool :=
  c == ' ' || c == '\t' || c == '\n' || c == '\r' || c == '\x0b' || c == '\x0c'

/-- Model of `s.strip()`: remove leading and trailing whitespace. -/
def pyStrip (s : String) : String :=
  String.mk (((s.data.dropWhile isPySpace).reverse.dropWhile isPySpace).reverse)

/-- Model of `s.lower()` (ASCII). -/
def strLower (s : String) : String :=
  String.mk (s.data.map Char.toLower)

/-- Model of `s[:n]`: the first `n` characters. -/
def strTake (s : String) (n : Nat) : String :=
  String.mk (s.data.take n)

/-- Helper for `splitWs`: accumulates the current word (reversed). -/
def splitWsAux : List Char → List Char → List String
  | [], cur => if cur.isEmpty then [] else [String.mk cur.reverse]
  | c :: rest, cur =>
      if isPySpace c then
        if cur.isEmpty then splitWsAux rest []
        else String.mk cur.reverse :: splitWsAux rest []
      else splitWsAux rest (c :: cur)

/-- Model of `s.split()` with no separator: split on whitespace runs, no empties. -/
def splitWs (s : String) : List String :=
  splitWsAux s.data []

/-- Model of `' '.join(parts)`. -/
def joinSpace (parts : List String) : String :=
  String.intercalate " " parts

/-- Helper for `splitDot`: accumulates the current piece (reversed). -/
def splitDotChars : List Char → List Char → List String
  | [], cur => [String.mk cur.reverse]
  | c :: rest, cur =>
      if c == '.' then String.mk cur.reverse :: splitDotChars rest []
      else splitDotChars rest (c :: cur)

/-- Model of `s.split('.')` (keeps empty pieces, like Python `str.split` with an
explicit separator). -/
def splitDot (s : String) : List String :=
  splitDotChars s.data []

/-- Model of `s.title()`: capitalise the first letter of every run of letters and
lowercase the rest (Python's simple language-independent notion of a
word; ASCII suffices for the fixed technology vocabulary). -/
def pyTitleAux : List Char → Bool → List Char
  | [], _ => []
  | c :: rest, prevAlpha =>
      if c.isAlpha then
        (if prevAlpha then c.toLower else c.toUpper) :: pyTitleAux rest true
      else c :: pyTitleAux rest false

/-- Model of `s.title()`. -/
def pyTitle (s : String) : String :=
  String.mk (pyTitleAux s.data false)

/-! ## JSON-shaped Python values -/

/-- A JSON-shaped Python value: the possible results of `json.loads` on a
transcript line.  (JSON floats are not needed by any field the code
reads; Python's numeric cross-type equality `True == 1` is not
modelled.) -/
inductive PyVal where
  | str (s : String)
  | int (n : Int)
  | bool (b : Bool)
  | none
  | list (xs : List PyVal)
  | dict (kvs : List (String × PyVal))

namespace PyVal

/-- Python truthiness: `bool(v)` for each modelled shape. -/
def truthy : PyVal → Bool
  | .str s => !s.isEmpty
  | .int n => n != 0
  | .bool b => b
  | .none => false
  | .list xs => !xs.isEmpty
  | .dict kvs => !kvs.isEmpty

/-- Whether `v` is a Python `dict`. -/
def isDict : PyVal → Bool
  | .dict _ => true
  | _ => false

/-- Whether `v` is a Python `str`. -/
def isStr : PyVal → Bool
  | .str _ => true
  | _ => false

/-- Whether `v` is hashable (usable as a `dict` key): every modelled
shape except `list` and `dict`. -/
def hashable : PyVal → Bool
  | .list _ => false
  | .dict _ => false
  | _ => true

/-- Model of `v == .str s` in Python (a non-string value never equals a string). -/
def isStrVal (v : PyVal) (s : String) : Bool :=
  match v with
  | .str t => t == s
  | _ => false

/-- Python `==` restricted to hashable JSON scalars, as used on dict
keys; containers compare unequal to everything here because they are
rejected as keys (`TypeError`) before any comparison. -/
def scalarEq : PyVal → PyVal → Bool
  | .str a, .str b => a == b
  | .int a, .int b => a == b
  | .bool a, .bool b => a == b
  | .none, .none => true
  | _, _ => false

/-- Lookup in the key-value pairs of a modelled `dict` (string keys;
first binding wins — transcript entries are modelled with their
effective bindings). -/
def lookup (kvs : List (String × PyVal)) (k : String) : Option PyVal :=
  match kvs with
  | [] => Option.none
  | (k', v) :: rest => if k' = k then some v else lookup rest k

/-- Model of `d.get(k, default)` on a value known to be a dict (the message dicts
built by the parser). -/
def dictGet (kvs : List (String × PyVal)) (k : String) (d : PyVal) : PyVal :=
  (lookup kvs k).getD d

/-- Model of `v.get(k, default)` on an arbitrary value: raises `AttributeError`
unless `v` is a dict. -/
def pyGet (v : PyVal) (k : String) (d : PyVal) : Except String PyVal :=
  match v with
  | .dict kvs => .ok (dictGet kvs k d)
  | _ => .error "AttributeError"

/-- Model of `k in v` for a string `k`: key membership for dicts, substring test
for strings, element-equality membership for lists, `TypeError`
otherwise. -/
def pyHasMem (v : PyVal) (k : String) : Except String Bool :=
  match v with
  | .dict kvs => .ok ((lookup kvs k).isSome)
  | .str s => .ok (strHasSub s k)
  | .list xs => .ok (xs.any (fun x => isStrVal x k))
  | _ => .error "TypeError"

/-- Model of `v[k]` for a string key: dict lookup (`KeyError` when absent),
`TypeError` on any other shape. -/
def pyIndex (v : PyVal) (k : String) : Except String PyVal :=
  match v with
  | .dict kvs =>
      match lookup kvs k with
      | some x => .ok x
      | Option.none => .error "KeyError"
  | _ => .error "TypeError"

/-- Model of `v.lower()`: ASCII lowercasing for strings, `AttributeError`
otherwise. -/
def pyLower (v : PyVal) : Except String String :=
  match v with
  | .str s => .ok (strLower s)
  | _ => .error "AttributeError"

end PyVal

/-! ## `str()` / `repr()` on JSON-shaped values

Models the stdlib stringification used by the parser on `tool_result`
outputs.  String escaping inside `repr` is simplified to the common
escapes (backslash, quote, newline, tab, carriage return); Python would
additionally escape other control characters and sometimes prefer double
quotes, which no claim depends on. -/

/-- One character of `repr` of a string. -/
def reprEscChar (c : Char) : List Char :=
  if c == '\\' then ['\\', '\\']
  else if c == Char.ofNat 39 then ['\\', Char.ofNat 39]
  else if c == '\n' then ['\\', 'n']
  else if c == '\t' then ['\\', 't']
  else if c == '\r' then ['\\', 'r']
  else [c]

/-- Model of `repr` of a Python string: single-quoted with escapes. -/
def reprQuote (s : String) : String :=
  String.mk (Char.ofNat 39 :: (s.data.flatMap reprEscChar) ++ [Char.ofNat 39])

/-- Model of `', '.join`. -/
def joinComma (parts : List String) : String :=
  String.intercalate ", " parts

mutual

/-- Model of `repr(v)` on JSON-shaped values. -/
def pyRepr : PyVal → String
  | .str s => reprQuote s
  | .int n => toString n
  | .bool b => if b then "True" else "False"
  | .none => "None"
  | .list xs => "[" ++ joinComma (pyReprList xs) ++ "]"
  | .dict kvs => "\x7b" ++ joinComma (pyReprKvs kvs) ++ "\x7d"

/-- Model of `repr` of each element of a list. -/
def pyReprList : List PyVal → List String
  | [] => []
  | x :: xs => pyRepr x :: pyReprList xs

/-- Model of `repr(k): repr(v)` of each binding of a dict. -/
def pyReprKvs : List (String × PyVal) → List String
  | [] => []
  | (k, v) :: kvs => (reprQuote k ++ ": " ++ pyRepr v) :: pyReprKvs kvs

end

/-- Model of `str(v)`: the string itself for strings, `repr` otherwise. -/
def pyStr : PyVal → String
  | .str s => s
  | .int n => toString n
  | .bool b => if b then "True" else "False"
  | .none => "None"
  | .list xs => "[" ++ joinComma (pyReprList xs) ++ "]"
  | .dict kvs => "\x7b" ++ joinComma (pyReprKvs kvs) ++ "\x7d"

/-! ## The parser's normalized messages (`TranscriptParser._process_entry`)

One variant per recognised discriminator, carrying exactly the fields the
source stores in the message dict.  Fields hold arbitrary `PyVal`s
because `entry.get(...)` copies whatever the JSON line contained. -/

/-- A normalized message, as appended to `messages` by
`TranscriptParser._process_entry`. -/
inductive Message where
  | user (content timestamp uuid sessionId : PyVal)
  | assistant (content timestamp uuid sessionId : PyVal)
  | tool_use (tool input timestamp uuid sessionId : PyVal)
  | tool_result (tool : PyVal) (output : String) (error timestamp uuid sessionId : PyVal)

namespace Message

/-- Model of `m['type'] == 'user'`. -/
def isUser : Message → Bool
  | .user _ _ _ _ => true
  | _ => false

/-- Model of `m['type'] == 'assistant'`. -/
def isAssistant : Message → Bool
  | .assistant _ _ _ _ => true
  | _ => false

/-- Model of `m['type'] == 'tool_use'`. -/
def isToolUse : Message → Bool
  | .tool_use _ _ _ _ _ => true
  | _ => false

/-- Model of `m['type'] == 'tool_result'`. -/
def isToolResult : Message → Bool
  | .tool_result _ _ _ _ _ _ => true
  | _ => false

/-- Model of `m.get('timestamp', ...)`: the timestamp field (always present in
parser output). -/
def timestamp : Message → PyVal
  | .user _ ts _ _ => ts
  | .assistant _ ts _ _ => ts
  | .tool_use _ _ ts _ _ => ts
  | .tool_result _ _ _ ts _ _ => ts

/-- Model of `m.get('content', '')`: present on user/assistant messages only. -/
def contentD : Message → PyVal
  | .user c _ _ _ => c
  | .assistant c _ _ _ => c
  | _ => .str ""

/-- Model of `m.get('tool', '')`: present on tool_use/tool_result messages only. -/
def toolD : Message → PyVal
  | .tool_use t _ _ _ _ => t
  | .tool_result t _ _ _ _ _ => t
  | _ => .str ""

/-- Model of `m.get('input', {})`: present on tool_use messages only. -/
def inputD : Message → PyVal
  | .tool_use _ i _ _ _ => i
  | _ => .dict []

/-- Model of `m.get('error', False)`: present on tool_result messages only. -/
def errorD : Message → PyVal
  | .tool_result _ _ e _ _ _ => e
  | _ => .bool false

end Message

/-- Model of `TranscriptParser._process_entry`: classify one decoded line and build
its normalized message (`.ok none` when no discriminator matches, an
exception when the line is not a dict — `entry.get` on a non-dict — or a
`user`/`assistant` line's `message` value is not a dict —
`entry['message'].get`). -/
def processEntry (entry : PyVal) : Except String (Option Message) :=
  match entry with
  | .dict kvs =>
      let t := PyVal.dictGet kvs "type" (.str "")
      if t.isStrVal "user" then
        match PyVal.lookup kvs "message" with
        | some (.dict m) =>
            .ok (some (.user (PyVal.dictGet m "content" (.str ""))
              (PyVal.dictGet kvs "timestamp" (.str "")) (PyVal.dictGet kvs "uuid" (.str ""))
              (PyVal.dictGet kvs "sessionId" (.str ""))))
        | some _ => .error "AttributeError"
        | Option.none => .ok Option.none
      else if t.isStrVal "assistant" then
        match PyVal.lookup kvs "message" with
        | some (.dict m) =>
            .ok (some (.assistant (PyVal.dictGet m "content" (.str ""))
              (PyVal.dictGet kvs "timestamp" (.str "")) (PyVal.dictGet kvs "uuid" (.str ""))
              (PyVal.dictGet kvs "sessionId" (.str ""))))
        | some _ => .error "AttributeError"
        | Option.none => .ok Option.none
      else if t.isStrVal "tool_use" then
        .ok (some (.tool_use (PyVal.dictGet kvs "toolName" (.str ""))
          (PyVal.dictGet kvs "input" (.dict []))
          (PyVal.dictGet kvs "timestamp" (.str "")) (PyVal.dictGet kvs "uuid" (.str ""))
          (PyVal.dictGet kvs "sessionId" (.str ""))))
      else if t.isStrVal "tool_result" then
        .ok (some (.tool_result (PyVal.dictGet kvs "toolName" (.str ""))
          (strTake (pyStr (PyVal.dictGet kvs "output" (.str ""))) 500)
          (PyVal.dictGet kvs "isError" (.bool false))
          (PyVal.dictGet kvs "timestamp" (.str "")) (PyVal.dictGet kvs "uuid" (.str ""))
          (PyVal.dictGet kvs "sessionId" (.str ""))))
      else .ok Option.none
  | _ => .error "AttributeError"

/-- One raw line of the transcript file: whitespace-only (skipped before
decoding), not valid JSON (`json.JSONDecodeError`, silently skipped), or
a decoded JSON value. -/
inductive RawLine where
  | blank
  | bad
  | json (v : PyVal)

/-- The per-line loop of `TranscriptParser.parse_transcript`: blank and
undecodable lines are skipped; a decoded line is handed to
`_process_entry`; an exception raised there is caught by the *outer*
`except Exception` (the inner handler catches only `JSONDecodeError`),
which ends the scan and returns the messages collected so far. -/
def parseLines : List RawLine → List Message
  | [] => []
  | .blank :: rest => parseLines rest
  | .bad :: rest => parseLines rest
  | .json v :: rest =>
      match processEntry v with
      | .ok Option.none => parseLines rest
      | .ok (some m) => m :: parseLines rest
      | .error _ => []

/-- Model of `TranscriptParser.parse_transcript`: `none` models a path that does
not resolve to an existing file (warning logged, empty result); `some
lines` models the readable file's lines.  Total — never raises. -/
def parse_transcript : Option (List RawLine) → List Message
  | Option.none => []
  | some lines => parseLines lines

/-! ## `SessionAnalyzer._extract_text_content` (the Text Extractor) -/

/-- The list comprehension
`[item.get('text', '') for item in content if item.get('type') == 'text']`:
raises `AttributeError` at the first non-dict element. -/
def textParts : List PyVal → Except String (List PyVal)
  | [] => .ok []
  | item :: rest => do
      let t ← item.pyGet "type" .none
      if t.isStrVal "text" then
        let x ← item.pyGet "text" (.str "")
        let xs ← textParts rest
        pure (x :: xs)
      else textParts rest

/-- Model of `' '.join(parts)`: `TypeError` unless every part is a string. -/
def joinStrParts (parts : List PyVal) : Except String String :=
  if parts.all (fun p => p.isStr) then
    .ok (joinSpace (parts.map (fun p => match p with | .str s => s | _ => "")))
  else .error "TypeError"

/-- Model of `SessionAnalyzer._extract_text_content`: strings pass through; a
non-empty list whose first element is a dict is treated as Claude API
blocks (joining the `text` of blocks typed `text`); any other list is
space-joined after `str()`; everything else is `str()`-ed. -/
def extract_text_content (content : PyVal) : Except String String :=
  match content with
  | .str s => .ok s
  | .list [] => .ok (joinSpace (([] : List PyVal).map pyStr))
  | .list (h :: rest) =>
      if h.isDict then do
        let parts ← textParts (h :: rest)
        joinStrParts parts
      else .ok (joinSpace ((h :: rest).map pyStr))
  | v => .ok (pyStr v)

/-- The total flattening used by spec-side facet descriptions: the
flattened text when `_extract_text_content` succeeds, `""` otherwise. -/
def flattenD (v : PyVal) : String :=
  match extract_text_content v with
  | .ok s => s
  | .error _ => ""

/-! ## Exact binary64 model

`success_rate` and `session_duration` go through CPython floats.  All the
float operations involved (`int / int` true division, `float * int`,
`float / int`, `timedelta.total_seconds`) are correctly rounded IEEE
binary64 operations, so they are modelled exactly: a nonnegative float is
a mantissa/exponent pair `m * 2 ^ e` produced by rounding a rational to
53 significant bits (round to nearest, ties to even; subnormals are
rounded at the fixed exponent `-1074`).  Signs are carried separately by
the callers; the values reached here never overflow to infinity. -/

/-- A nonnegative binary64 value `m * 2 ^ e` (`m = 0` encodes `0.0`). -/
structure FP where
  m : Nat
  e : Int
  deriving DecidableEq

/-- Round `a / b` to the nearest natural, ties to even (`b > 0`). -/
def roundDivHalfEven (a b : Nat) : Nat :=
  let q := a / b
  let r := a % b
  if b < 2 * r then q + 1
  else if 2 * r < b then q
  else if q % 2 = 0 then q else q + 1

/-- Computes `⌊log2 n⌋` for `n ≥ 1`, by fuel-based structural recursion (so that
concrete values reduce by `rfl`; `n` itself is always enough fuel). -/
def natLog2Fuel : Nat → Nat → Nat
  | 0, _ => 0
  | fuel + 1, n => if n ≤ 1 then 0 else natLog2Fuel fuel (n / 2) + 1

/-- Computes `⌊log2 n⌋` for `n ≥ 1`. -/
def natLog2 (n : Nat) : Nat := natLog2Fuel n n

/-- Computes `⌊log2 (a / b)⌋` for positive naturals. -/
def floorLog2Rat (a b : Nat) : Int :=
  let k0 : Int := (natLog2 a : Int) - (natLog2 b : Int)
  let ge : Bool :=
    if 0 ≤ k0 then decide (b * 2 ^ k0.toNat ≤ a) else decide (b ≤ a * 2 ^ (-k0).toNat)
  if ge then k0 else k0 - 1

/-- The nearest binary64 value to `(a / b) * 2 ^ E` (round half to
even). -/
def fpRound (a b : Nat) (E : Int) : FP :=
  if a = 0 || b = 0 then ⟨0, 0⟩
  else
    let k := floorLog2Rat a b + E
    let e := max (k - 52) (-1074)
    let d := e - E
    let m0 :=
      if d ≤ 0 then roundDivHalfEven (a * 2 ^ (-d).toNat) b
      else roundDivHalfEven a (b * 2 ^ d.toNat)
    if m0 = 2 ^ 53 then ⟨2 ^ 52, e + 1⟩ else ⟨m0, e⟩

/-- Model of `x * 100` on floats (float times exact small int). -/
def fpMul100 (x : FP) : FP :=
  fpRound (x.m * 100) 1 x.e

/-- Model of `f"{x:.1f}"` for a nonnegative float: correctly round `x * 10` to an
integer (ties to even, as CPython's float formatting does on the exact
binary value) and print one decimal. -/
def formatFixed1 (x : FP) : String :=
  let n :=
    if 0 ≤ x.e then x.m * 10 * 2 ^ x.e.toNat
    else roundDivHalfEven (x.m * 10) (2 ^ (-x.e).toNat)
  toString (n / 10) ++ "." ++ toString (n % 10)

/-- Model of `f"{(s / max(t, 1)) * 100:.1f}%"` for natural counts `s`, `t`: the
success-rate formula of `calculate_metrics`, via exact binary64
semantics. -/
def formatPercent (s t : Nat) : String :=
  formatFixed1 (fpMul100 (fpRound s (max t 1) 0)) ++ "%"

/-! ## The `session_duration` computation

Models the stdlib round trip
`datetime.fromisoformat(a.replace('Z','+00:00'))`, datetime subtraction,
`timedelta.total_seconds()` and `f"{x:.1f} minutes"`.  The ISO parser
models the pre-3.11 `fromisoformat` grammar on its common forms
(`YYYY-MM-DD[*HH:MM[:SS[.fff[fff]]][±HH:MM]]`); anything else is a
parse failure (`ValueError`), which the source's bare `except` turns
into `"Unknown"`.  No claim depends on the value computed here for
well-formed timestamps. -/

/-- Decimal digit value. -/
def digitVal (c : Char) : Option Nat :=
  if c.isDigit then some (c.toNat - 48) else Option.none

/-- Two-digit number. -/
def num2 (a b : Char) : Option Nat := do
  let x ← digitVal a
  let y ← digitVal b
  pure (10 * x + y)

/-- Four-digit number. -/
def num4 (a b c d : Char) : Option Nat := do
  let x ← num2 a b
  let y ← num2 c d
  pure (100 * x + y)

/-- Leap year (proleptic Gregorian). -/
def isLeap (y : Nat) : Bool :=
  y % 4 = 0 && (y % 100 ≠ 0 || y % 400 = 0)

/-- Days in a month. -/
def daysInMonth (y mo : Nat) : Nat :=
  if mo = 2 then (if isLeap y then 29 else 28)
  else if mo = 4 || mo = 6 || mo = 9 || mo = 11 then 30
  else 31

/-- Days in the months strictly before `mo` of year `y`. -/
def daysBeforeMonth (y mo : Nat) : Nat :=
  (List.range mo).foldl (fun acc m => if m = 0 then acc else acc + daysInMonth y m) 0

/-- Model of `date(y, mo, d).toordinal() - 1`: complete days before the given
date, counting from 0001-01-01. -/
def daysBeforeDate (y mo d : Nat) : Nat :=
  (365 * (y - 1) + (y - 1) / 4 - (y - 1) / 100 + (y - 1) / 400) + daysBeforeMonth y mo + (d - 1)

/-- Parse `[.fff или .ffffff]` microseconds plus what follows. -/
def parseFrac : List Char → Option (Nat × List Char)
  | '.' :: a :: b :: c :: d :: e :: f :: rest => do
      let v ← num4 a b c d
      let w ← num2 e f
      pure (v * 100 + w, rest)
  | '.' :: a :: b :: c :: rest => do
      let v ← num2 a b
      let w ← digitVal c
      pure ((10 * v + w) * 1000, rest)
  | rest => pure (0, rest)

/-- Parse a trailing UTC offset `±HH:MM`; `none` result component means a
naive time. -/
def parseOffset : List Char → Option (Option Int)
  | [] => pure Option.none
  | '+' :: h1 :: h2 :: ':' :: m1 :: m2 :: [] => do
      let h ← num2 h1 h2
      let m ← num2 m1 m2
      if h ≤ 23 && m ≤ 59 then pure (some ((h * 60 + m : Nat) : Int)) else Option.none
  | '-' :: h1 :: h2 :: ':' :: m1 :: m2 :: [] => do
      let h ← num2 h1 h2
      let m ← num2 m1 m2
      if h ≤ 23 && m ≤ 59 then pure (some (-((h * 60 + m : Nat) : Int))) else Option.none
  | _ => Option.none

/-- Parse the time-of-day part `HH:MM[:SS[.frac]][±HH:MM]`, returning
microseconds within the day and the offset. -/
def parseTime : List Char → Option (Nat × Option Int)
  | h1 :: h2 :: ':' :: m1 :: m2 :: rest => do
      let h ← num2 h1 h2
      let mi ← num2 m1 m2
      if h ≤ 23 && mi ≤ 59 then
        match rest with
        | ':' :: s1 :: s2 :: rest2 => do
            let s ← num2 s1 s2
            if s ≤ 59 then do
              let (frac, rest3) ← parseFrac rest2
              let off ← parseOffset rest3
              pure (((h * 3600 + mi * 60 + s) * 1000000 + frac), off)
            else Option.none
        | _ => do
            let off ← parseOffset rest
            pure ((h * 3600 + mi * 60) * 1000000, off)
      else Option.none
  | _ => Option.none

/-- Model of `datetime.fromisoformat`: returns `(aware, microseconds since
0001-01-01 00:00, shifted to UTC when aware)`. -/
def parseIso (s : String) : Option (Bool × Int) :=
  match s.data with
  | y1 :: y2 :: y3 :: y4 :: '-' :: mo1 :: mo2 :: '-' :: d1 :: d2 :: rest => do
      let y ← num4 y1 y2 y3 y4
      let mo ← num2 mo1 mo2
      let d ← num2 d1 d2
      if 1 ≤ y && 1 ≤ mo && mo ≤ 12 && 1 ≤ d && d ≤ daysInMonth y mo then
        match rest with
        | [] => pure (false, ((daysBeforeDate y mo d * 86400000000 : Nat) : Int))
        | _ :: timeChars => do
            let (micro, off) ← parseTime timeChars
            let base : Int := (daysBeforeDate y mo d * 86400000000 + micro : Nat)
            match off with
            | some o => pure (true, base - o * 60000000)
            | Option.none => pure (false, base)
      else Option.none
  | _ => Option.none

/-- Model of `s.replace('Z', '+00:00')` (single-character needle, so plain
per-character replacement is exact). -/
def replaceZChars : List Char → List Char
  | [] => []
  | c :: rest =>
      if c == 'Z' then '+' :: '0' :: '0' :: ':' :: '0' :: '0' :: replaceZChars rest
      else c :: replaceZChars rest

/-- Model of `s.replace('Z', '+00:00')`. -/
def replaceZ (s : String) : String :=
  String.mk (replaceZChars s.data)

/-- The body of the `try` around the duration computation: both
timestamps must be strings (`.replace` raises otherwise), must parse
after `'Z' → '+00:00'` replacement, and must agree on awareness (mixing
naive and aware datetimes makes the subtraction raise).  On success,
`f"{delta.total_seconds() / 60:.1f} minutes"` via exact binary64
semantics. -/
def pyTimestampDiffMinutes (t0 t1 : PyVal) : Option String :=
  match t0, t1 with
  | .str a, .str b => do
      let (aw0, u0) ← parseIso (replaceZ a)
      let (aw1, u1) ← parseIso (replaceZ b)
      if aw0 = aw1 then
        let dmicro : Int := u1 - u0
        let secsF := fpRound dmicro.natAbs 1000000 0
        let minsF := fpRound secsF.m 60 secsF.e
        pure ((if dmicro < 0 then "-" else "") ++ formatFixed1 minsF ++ " minutes")
      else Option.none
  | _, _ => Option.none

/-! ## `SessionAnalyzer.calculate_metrics` -/

/-- The metrics dict built by `calculate_metrics` (its eight keys). -/
structure Metrics where
  total_messages : Nat
  user_messages : Nat
  assistant_messages : Nat
  tools_used : Nat
  successful_operations : Nat
  failed_operations : Nat
  success_rate : String
  session_duration : String
  deriving DecidableEq

/-- Model of `SessionAnalyzer.calculate_metrics`.  The body cannot raise in this
model (`max(..., 1)` prevents division by zero and the duration
computation sits inside its own bare `except`), so the outer handler
returning `{}` is unreachable. -/
def calculate_metrics (messages : List Message) : Metrics :=
  let user_msgs := messages.filter (fun m => m.isUser)
  let assistant_msgs := messages.filter (fun m => m.isAssistant)
  let tool_uses := messages.filter (fun m => m.isToolUse)
  let tool_results := messages.filter (fun m => m.isToolResult)
  let successful_tools := tool_results.filter (fun t => !t.errorD.truthy)
  let failed_tools := tool_results.filter (fun t => t.errorD.truthy)
  let timestamps := (messages.map (fun m => m.timestamp)).filter (fun t => t.truthy)
  let duration :=
    if 2 ≤ timestamps.length then
      match pyTimestampDiffMinutes (timestamps.headD .none) (timestamps.getLastD .none) with
      | some d => d
      | Option.none => "Unknown"
    else "Unknown"
  { total_messages := messages.length
    user_messages := user_msgs.length
    assistant_messages := assistant_msgs.length
    tools_used := tool_uses.length
    successful_operations := successful_tools.length
    failed_operations := failed_tools.length
    success_rate :=
      if !tool_results.isEmpty then
        formatFixed1 (fpMul100 (fpRound successful_tools.length (max tool_results.length 1) 0)) ++ "%"
      else "N/A"
    session_duration := duration }

/-! ## `SessionAnalyzer` keyword configuration (from `__init__` and the
facet methods) -/

/-- Model of `self.goal_keywords`. -/
def goal_keywords : List String :=
  ["help", "create", "build", "implement", "fix", "debug", "setup",
   "install", "configure", "optimize", "refactor", "update", "add",
   "remove", "deploy", "test", "analyze", "understand", "explain"]

/-- Model of `self.problem_indicators`. -/
def problem_indicators : List String :=
  ["error", "issue", "problem", "bug", "fail", "broken", "wrong",
   "not working", "doesn\x27t work", "can\x27t", "unable", "trouble"]

/-- Model of `self.solution_indicators`. -/
def solution_indicators : List String :=
  ["fixed", "solved", "working", "success", "completed", "done",
   "resolved", "corrected", "updated", "implemented"]

/-- Model of `decision_keywords` (local to `extract_decisions`). -/
def decision_keywords : List String :=
  ["decided to", "chose to", "selected", "will use", "going with",
   "better to", "instead of", "approach", "strategy", "plan"]

/-- Model of `learning_keywords` (local to `extract_learnings`). -/
def learning_keywords : List String :=
  ["learned", "discovered", "found out", "realized", "understood",
   "turns out", "it appears", "the issue was", "the solution is"]

/-- Model of `follow_up_keywords` (local to `identify_follow_ups`). -/
def follow_up_keywords : List String :=
  ["next step", "should", "need to", "todo", "later", "follow up",
   "consider", "might want", "could also", "future", "next time"]

/-- Model of `tech_patterns['languages']`. -/
def tech_languages : List String :=
  ["python", "javascript", "typescript", "java", "go", "rust", "c++", "c#", "php", "ruby"]

/-- Model of `tech_patterns['frameworks']`. -/
def tech_frameworks : List String :=
  ["react", "vue", "angular", "django", "flask", "express", "fastapi", "spring"]

/-- Model of `tech_patterns['tools']`. -/
def tech_tools : List String :=
  ["docker", "kubernetes", "git", "npm", "pip", "yarn", "webpack", "babel"]

/-- Model of `tech_patterns['databases']`. -/
def tech_databases : List String :=
  ["postgres", "mysql", "mongodb", "redis", "elasticsearch", "sqlite"]

/-- Model of `tech_patterns['platforms']`. -/
def tech_platforms : List String :=
  ["aws", "azure", "gcp", "heroku", "vercel", "netlify"]

/-- All technology vocabulary entries, in the dict's insertion/iteration
order. -/
def tech_all : List String :=
  tech_languages ++ tech_frameworks ++ tech_tools ++ tech_databases ++ tech_platforms

/-! ## `SessionAnalyzer.extract_main_objective` -/

/-- The loop `for msg in user_messages[:3]` collecting stripped flattened
contents longer than 10 characters (in order; a flatten failure aborts,
feeding the method's `except` handler). -/
def earlyRequests : List Message → Except String (List String)
  | [] => .ok []
  | m :: rest => do
      let content := pyStrip (← extract_text_content m.contentD)
      let acc ← earlyRequests rest
      pure (if !content.isEmpty && content.length > 10 then content :: acc else acc)

/-- Model of `max(requests, key=len)`: the first element of maximal length. -/
def maxByLen (h : String) (t : List String) : String :=
  t.foldl (fun best x => if best.length < x.length then x else best) h

/-- The goal-keyword scan: one context window
`words[max(0, i-2) : min(len(words), i+8)]` per keyword hit, in order. -/
def goalWindows (words : List String) : List String :=
  words.enum.filterMap (fun p =>
    if goal_keywords.contains p.2 then
      some (joinSpace ((words.take (p.1 + 8)).drop (p.1 - 2)))
    else Option.none)

/-- The `try` body of `extract_main_objective`. -/
def extractMainObjectiveBody (messages : List Message) : Except String String := do
  let user_messages := (messages.take 10).filter (fun m => m.isUser)
  if user_messages.isEmpty then
    pure "No clear objective identified"
  else do
    let early_requests ← earlyRequests (user_messages.take 3)
    match early_requests with
    | [] => pure "No clear objective identified"
    | h :: t =>
        let main_request := maxByLen h t
        let words := splitWs (strLower main_request)
        match goalWindows words with
        | g :: _ => pure ("Primary goal: " ++ g)
        | [] => pure ("Session focus: " ++ strTake main_request 100 ++ "...")

/-- Model of `SessionAnalyzer.extract_main_objective` (the `except` handler
substitutes the fixed error string). -/
def extract_main_objective (messages : List Message) : String :=
  match extractMainObjectiveBody messages with
  | .ok s => s
  | .error _ => "Could not determine objective"

/-! ## `SessionAnalyzer.get_modified_files` -/

/-- One value of the `modified_files` dict. -/
structure FileRec where
  file : PyVal
  operations : List PyVal
  first_modified : PyVal
  last_modified : PyVal

/-- Create-or-update of the insertion-ordered `modified_files` dict for
one write-class tool use (key comparison is Python `==` on the hashable
`file_path` value). -/
def gmfUpdate : List (PyVal × FileRec) → PyVal → PyVal → PyVal → List (PyVal × FileRec)
  | [], fp, tool, ts => [(fp, ⟨fp, [tool], ts, ts⟩)]
  | (k, r) :: rest, fp, tool, ts =>
      if PyVal.scalarEq k fp then
        (k, { r with operations := r.operations ++ [tool], last_modified := ts }) :: rest
      else (k, r) :: gmfUpdate rest fp tool ts

/-- The `for tool in tool_uses` loop of `get_modified_files`:
`tool_input.get('file_path', '')` raises on a non-dict input, and the
membership test `file_path not in modified_files` raises `TypeError` on
an unhashable (list/dict) key. -/
def gmfLoop : List Message → List (PyVal × FileRec) → Except String (List (PyVal × FileRec))
  | [], d => .ok d
  | m :: rest, d => do
      let tool_name := m.toolD
      if tool_name.isStrVal "Write" || tool_name.isStrVal "Edit" || tool_name.isStrVal "MultiEdit" then do
        let fp ← m.inputD.pyGet "file_path" (.str "")
        if fp.truthy then
          if fp.hashable then gmfLoop rest (gmfUpdate d fp tool_name m.timestamp)
          else .error "TypeError"
        else gmfLoop rest d
      else gmfLoop rest d

/-- Model of `SessionAnalyzer.get_modified_files`: the dict's values in insertion
order, or `[]` when the loop raised (caught by the method's handler). -/
def get_modified_files (messages : List Message) : List FileRec :=
  match gmfLoop (messages.filter (fun m => m.isToolUse)) [] with
  | .ok d => d.map (fun p => p.2)
  | .error _ => []

/-! ## `SessionAnalyzer.identify_solutions` -/

/-- The problems scan over user messages (collected but unused by the
output; modelled because its flatten calls can raise and abort the
method). -/
def problemsScan : List Message → Except String (List (String × PyVal))
  | [] => .ok []
  | m :: rest => do
      let content := strLower (← extract_text_content m.contentD)
      if problem_indicators.any (fun ind => strHasSub content ind) then do
        let p := strTake (← extract_text_content m.contentD) 200
        let xs ← problemsScan rest
        pure ((p, m.timestamp) :: xs)
      else problemsScan rest

/-- The solutions scan over assistant messages: one
`"Solution achieved: ..."` entry per message whose lowercased flattened
content contains a solution indicator (first hit breaks the indicator
loop). -/
def solutionsScan : List Message → Except String (List String)
  | [] => .ok []
  | m :: rest => do
      let content := strLower (← extract_text_content m.contentD)
      if solution_indicators.any (fun ind => strHasSub content ind) then do
        let s := "Solution achieved: " ++ strTake (← extract_text_content m.contentD) 150 ++ "..."
        let xs ← solutionsScan rest
        pure (s :: xs)
      else solutionsScan rest

/-- The `try` body of `identify_solutions`. -/
def identifySolutionsBody (messages : List Message) : Except String (List String) := do
  let user_messages := messages.filter (fun m => m.isUser)
  let assistant_messages := messages.filter (fun m => m.isAssistant)
  let _problems ← problemsScan user_messages
  let solutions ← solutionsScan assistant_messages
  let solutions :=
    if solutions.isEmpty then
      let successful_tools := messages.filter (fun m => m.isToolResult && !m.errorD.truthy)
      if !successful_tools.isEmpty then
        ["Successfully completed " ++ toString successful_tools.length ++ " tool operations"]
      else solutions
    else solutions
  pure (solutions.take 5)

/-- Model of `SessionAnalyzer.identify_solutions`. -/
def identify_solutions (messages : List Message) : List String :=
  match identifySolutionsBody messages with
  | .ok l => l
  | .error _ => []

/-! ## `SessionAnalyzer.extract_decisions` / `extract_learnings`

Both methods run the same scan (differing only in keyword set, minimum
sentence length and cap), so the loop structure is shared. -/

/-- Model of `for sentence in sentences: if keyword in sentence.lower(): ...;
break` — the first sentence containing the keyword. -/
def firstSentenceWith (sentences : List String) (keyword : String) : Option String :=
  match sentences with
  | [] => Option.none
  | s :: rest => if strHasSub (strLower s) keyword then some s else firstSentenceWith rest keyword

/-- The keyword loop body shared by decisions and learnings: on a keyword
hit, append the first keyword-bearing sentence (stripped, first 200
chars) when it is longer than `minLen`; break the loop once `cap`
entries are collected. -/
def sentKwLoop (minLen cap : Nat) (content contentLower : String) :
    List String → List String → List String
  | [], acc => acc
  | kw :: kws, acc =>
      if strHasSub contentLower kw then
        let acc' :=
          match firstSentenceWith (splitDot content) kw with
          | some s => if minLen < (pyStrip s).length then acc ++ [strTake (pyStrip s) 200] else acc
          | Option.none => acc
        if cap ≤ acc'.length then acc'
        else sentKwLoop minLen cap content contentLower kws acc'
      else sentKwLoop minLen cap content contentLower kws acc

/-- The message loop shared by decisions and learnings (breaks once `cap`
entries are collected; a flatten failure aborts to the handler). -/
def sentMsgLoop (minLen cap : Nat) (keywords : List String) :
    List Message → List String → Except String (List String)
  | [], acc => .ok acc
  | m :: rest, acc => do
      let content ← extract_text_content m.contentD
      let acc' := sentKwLoop minLen cap content (strLower content) keywords acc
      if cap ≤ acc'.length then .ok acc'
      else sentMsgLoop minLen cap keywords rest acc'

/-- Model of `SessionAnalyzer.extract_decisions`: assistant messages, sentence
length > 20, cap 5. -/
def extract_decisions (messages : List Message) : List String :=
  match sentMsgLoop 20 5 decision_keywords (messages.filter (fun m => m.isAssistant)) [] with
  | .ok l => l
  | .error _ => []

/-- Model of `SessionAnalyzer.extract_learnings`: assistant messages, sentence
length > 15, cap 3. -/
def extract_learnings (messages : List Message) : List String :=
  match sentMsgLoop 15 3 learning_keywords (messages.filter (fun m => m.isAssistant)) [] with
  | .ok l => l
  | .error _ => []

/-! ## `SessionAnalyzer.identify_technologies` -/

/-- Model of `set.add`: the `technologies` set as an insertion-ordered duplicate-free
list (iteration order does not matter — the method sorts before
returning). -/
def setAdd (s : List String) (x : String) : List String :=
  if s.contains x then s else s ++ [x]

/-- The flattened contents of the given messages, in order (a flatten
failure aborts to the handler). -/
def flattenAll : List Message → Except String (List String)
  | [] => .ok []
  | m :: rest => do
      let c ← extract_text_content m.contentD
      let cs ← flattenAll rest
      pure (c :: cs)

/-- Model of `' '.join([...user and assistant contents...]).lower()`. -/
def allContentLower (messages : List Message) : Except String String := do
  let parts ← flattenAll (messages.filter (fun m => m.isUser || m.isAssistant))
  pure (strLower (joinSpace parts))

/-- The file-extension loop over `tool_use` messages: `'file_path' in
tool_input` (raising `TypeError` on an int-like input),
`tool_input['file_path'].lower()` (raising on a non-dict input or
non-string path), then the substring `elif` chain on extensions. -/
def techExtLoop : List Message → List String → Except String (List String)
  | [], techs => .ok techs
  | m :: rest, techs => do
      let tool_input := m.inputD
      let has ← tool_input.pyHasMem "file_path"
      if has then do
        let fpv ← tool_input.pyIndex "file_path"
        let fp ← fpv.pyLower
        let techs' :=
          if strHasSub fp ".py" then setAdd techs "Python"
          else if strHasSub fp ".js" then setAdd techs "JavaScript"
          else if strHasSub fp ".ts" then setAdd techs "TypeScript"
          else if strHasSub fp ".java" then setAdd techs "Java"
          else if strHasSub fp ".go" then setAdd techs "Go"
          else techs
        techExtLoop rest techs'
      else techExtLoop rest techs

/-- The vocabulary-mention loop: `technologies.add(tech.title())` for
every vocabulary entry occurring in `all_content` as a substring. -/
def techMentionLoop (all_content : String) : List String → List String → List String
  | [], techs => techs
  | t :: ts, techs =>
      if strHasSub all_content t then techMentionLoop all_content ts (setAdd techs (pyTitle t))
      else techMentionLoop all_content ts techs

/-- Python's `<` on strings: lexicographic by code point (character
lists). -/
def strLtChars : List Char → List Char → Bool
  | [], [] => false
  | [], _ :: _ => true
  | _ :: _, [] => false
  | a :: as, b :: bs => if a == b then strLtChars as bs else decide (a.toNat < b.toNat)

/-- Python's `<=` on strings (`a <= b ↔ ¬ b < a`). -/
def strLeB (a b : String) : Bool :=
  !(strLtChars b.data a.data)

/-- The ordering used by `sorted` on strings, as a decidable relation. -/
def StrLe (a b : String) : Prop :=
  strLeB a b = true

instance : DecidableRel StrLe :=
  fun a b => instDecidableEqBool (strLeB a b) true

/-- Model of `sorted(list(technologies))`: Python sorts strings by code points;
with a duplicate-free input, any correct sort produces the same list, so
insertion sort under the code-point order is exact. -/
def pySorted (l : List String) : List String :=
  l.insertionSort StrLe

/-- The `try` body of `identify_technologies` (in source order:
`all_content` first, then the extension loop, then the mention loop,
then sorting). -/
def identifyTechnologiesBody (messages : List Message) : Except String (List String) := do
  let all_content ← allContentLower messages
  let techs ← techExtLoop (messages.filter (fun m => m.isToolUse)) []
  let techs := techMentionLoop all_content tech_all techs
  pure (pySorted techs)

/-- Model of `SessionAnalyzer.identify_technologies`. -/
def identify_technologies (messages : List Message) : List String :=
  match identifyTechnologiesBody messages with
  | .ok l => l
  | .error _ => []

/-! ## `SessionAnalyzer.identify_follow_ups` -/

/-- The keyword loop of `identify_follow_ups` (like `sentKwLoop` but with
no cap-break inside the loop). -/
def followUpsKwLoop (content contentLower : String) : List String → List String → List String
  | [], acc => acc
  | kw :: kws, acc =>
      if strHasSub contentLower kw then
        let acc' :=
          match firstSentenceWith (splitDot content) kw with
          | some s => if 15 < (pyStrip s).length then acc ++ [strTake (pyStrip s) 200] else acc
          | Option.none => acc
        followUpsKwLoop content contentLower kws acc'
      else followUpsKwLoop content contentLower kws acc

/-- The message loop of `identify_follow_ups` over the last five
assistant messages. -/
def followUpsMsgLoop : List Message → List String → Except String (List String)
  | [], acc => .ok acc
  | m :: rest, acc => do
      let content ← extract_text_content m.contentD
      followUpsMsgLoop rest (followUpsKwLoop content (strLower content) follow_up_keywords acc)

/-- The `try` body of `identify_follow_ups`. -/
def identifyFollowUpsBody (messages : List Message) : Except String (List String) := do
  let assistant_messages := messages.filter (fun m => m.isAssistant)
  let recent := assistant_messages.drop (assistant_messages.length - 5)
  let follow_ups ← followUpsMsgLoop recent []
  let failed := messages.filter (fun m => m.isToolResult && m.errorD.truthy)
  let follow_ups :=
    if !failed.isEmpty then
      follow_ups ++ ["Review " ++ toString failed.length ++ " failed operations"]
    else follow_ups
  pure (follow_ups.take 5)

/-- Model of `SessionAnalyzer.identify_follow_ups`. -/
def identify_follow_ups (messages : List Message) : List String :=
  match identifyFollowUpsBody messages with
  | .ok l => l
  | .error _ => []

/-! ## `SessionAnalyzer.analyze_session` -/

/-- The analysis report: the eight facet keys built by
`analyze_session`.  Every facet method catches its own exceptions and
returns a default, so the method's own `except` branch (returning an
error dict) is unreachable in this model and the result is total. -/
structure Analysis where
  session_goal : String
  files_modified : List FileRec
  problems_solved : List String
  key_decisions : List String
  technologies_used : List String
  session_metrics : Metrics
  learning_outcomes : List String
  follow_up_items : List String

/-- Model of `SessionAnalyzer.analyze_session`. -/
def analyze_session (messages : List Message) : Analysis :=
  { session_goal := extract_main_objective messages
    files_modified := get_modified_files messages
    problems_solved := identify_solutions messages
    key_decisions := extract_decisions messages
    technologies_used := identify_technologies messages
    session_metrics := calculate_metrics messages
    learning_outcomes := extract_learnings messages
    follow_up_items := identify_follow_ups messages }

/-! ## Spec-side definitions

Declarative restatements of claimed behaviour, to be compared with the
operational embeddings above. -/

/-- Does a decoded line carry one of the four recognised discriminators?
(The spec's notion: a mapping whose `type` is `user`, `assistant`,
`tool_use` or `tool_result`.) -/
def recognizedDiscriminator (v : PyVal) : Bool :=
  match v with
  | .dict kvs =>
      let t := PyVal.dictGet kvs "type" (.str "")
      t.isStrVal "user" || t.isStrVal "assistant" || t.isStrVal "tool_use" || t.isStrVal "tool_result"
  | _ => false

/-- Spec-side: the unique normalized message of one decoded mapping line
(`none` when the line produces no message): `tool_use`/`tool_result`
lines always produce one; `user`/`assistant` lines produce one exactly
when their `message` field is present and is a mapping. -/
def entryMsgSpec (kvs : List (String × PyVal)) : Option Message :=
  let t := PyVal.dictGet kvs "type" (.str "")
  if t.isStrVal "user" then
    match PyVal.lookup kvs "message" with
    | some (.dict m) =>
        some (.user (PyVal.dictGet m "content" (.str ""))
          (PyVal.dictGet kvs "timestamp" (.str "")) (PyVal.dictGet kvs "uuid" (.str ""))
          (PyVal.dictGet kvs "sessionId" (.str "")))
    | _ => Option.none
  else if t.isStrVal "assistant" then
    match PyVal.lookup kvs "message" with
    | some (.dict m) =>
        some (.assistant (PyVal.dictGet m "content" (.str ""))
          (PyVal.dictGet kvs "timestamp" (.str "")) (PyVal.dictGet kvs "uuid" (.str ""))
          (PyVal.dictGet kvs "sessionId" (.str "")))
    | _ => Option.none
  else if t.isStrVal "tool_use" then
    some (.tool_use (PyVal.dictGet kvs "toolName" (.str "")) (PyVal.dictGet kvs "input" (.dict []))
      (PyVal.dictGet kvs "timestamp" (.str "")) (PyVal.dictGet kvs "uuid" (.str ""))
      (PyVal.dictGet kvs "sessionId" (.str "")))
  else if t.isStrVal "tool_result" then
    some (.tool_result (PyVal.dictGet kvs "toolName" (.str ""))
      (strTake (pyStr (PyVal.dictGet kvs "output" (.str ""))) 500)
      (PyVal.dictGet kvs "isError" (.bool false))
      (PyVal.dictGet kvs "timestamp" (.str "")) (PyVal.dictGet kvs "uuid" (.str ""))
      (PyVal.dictGet kvs "sessionId" (.str "")))
  else Option.none

/-- Spec-side: the message of one raw line (blank, undecodable,
non-mapping and unrecognised-discriminator lines produce none). -/
def lineMsgSpec : RawLine → Option Message
  | .json (.dict kvs) => entryMsgSpec kvs
  | _ => Option.none

/-- Spec-side: a line whose processing raises (ending the scan): a
decoded line that is not a mapping, or a `user`/`assistant` line whose
`message` field is present but not a mapping. -/
def linePoison : RawLine → Bool
  | .json (.dict kvs) =>
      let t := PyVal.dictGet kvs "type" (.str "")
      (t.isStrVal "user" || t.isStrVal "assistant") &&
        (match PyVal.lookup kvs "message" with
         | some v => !v.isDict
         | Option.none => false)
  | .json _ => true
  | .blank => false
  | .bad => false

/-- The claim C2 exactly as stated: among the first 10 messages keep the
`UserMessage`s, flatten their content, discard those of flattened length
at most 10, take up to the first 3 qualifying, pick the longest as the
main request; on the first goal-keyword hit over its lowercased words
return a window of up to 2 words before through 8 words after the hit,
else the 100-character fallback. -/
def mainObjectiveClaim (messages : List Message) : String :=
  let users := (messages.take 10).filter (fun m => m.isUser)
  let qualifying := ((users.map (fun m => flattenD m.contentD)).filter (fun c => 10 < c.length)).take 3
  match qualifying with
  | [] => "No clear objective identified"
  | h :: t =>
      let main := maxByLen h t
      let words := splitWs (strLower main)
      let windows := words.enum.filterMap (fun p =>
        if goal_keywords.contains p.2 then
          some (joinSpace ((words.take (p.1 + 9)).drop (p.1 - 2)))
        else Option.none)
      match windows with
      | g :: _ => "Primary goal: " ++ g
      | [] => "Session focus: " ++ strTake main 100 ++ "..."

/-- The amended claim C2: the source takes the first 3 user messages
*first* and only then discards the short ones (also stripping
whitespace before measuring), and its context window is
`words[max(0, i-2) : min(len(words), i+8)]`. -/
def mainObjectiveAmended (messages : List Message) : String :=
  let users := (messages.take 10).filter (fun m => m.isUser)
  let qualifying := ((users.take 3).map (fun m => pyStrip (flattenD m.contentD))).filter
    (fun c => !c.isEmpty && 10 < c.length)
  match qualifying with
  | [] => "No clear objective identified"
  | h :: t =>
      let main := maxByLen h t
      let words := splitWs (strLower main)
      match goalWindows words with
      | g :: _ => "Primary goal: " ++ g
      | [] => "Session focus: " ++ strTake main 100 ++ "..."

/-- Spec-side (C6): the write-class occurrence
`(file_path, tool_name, timestamp)` contributed by one message, if any —
a `tool_use` whose tool is `Write`/`Edit`/`MultiEdit` and whose input
mapping carries a truthy `file_path`. -/
def occOf (m : Message) : Option (PyVal × PyVal × PyVal) :=
  if m.toolD.isStrVal "Write" || m.toolD.isStrVal "Edit" || m.toolD.isStrVal "MultiEdit" then
    match m.inputD with
    | .dict kvs =>
        let fp := PyVal.dictGet kvs "file_path" (.str "")
        if fp.truthy then some (fp, m.toolD, m.timestamp) else Option.none
    | _ => Option.none
  else Option.none

/-- Spec-side (C6): all write-class occurrences of a message sequence,
in order. -/
def writeOccs (messages : List Message) : List (PyVal × PyVal × PyVal) :=
  (messages.filter (fun m => m.isToolUse)).filterMap occOf

/-- Model of `l.any (scalarEq · x)`: membership modulo Python `==` on keys. -/
def memS (l : List PyVal) (x : PyVal) : Bool :=
  l.any (fun s => PyVal.scalarEq s x)

/-- First-occurrence deduplication of a key list (structural, with a
`seen` accumulator). -/
def firstDedupAux : List PyVal → List PyVal → List PyVal
  | [], _ => []
  | k :: rest, seen =>
      if memS seen k then firstDedupAux rest seen
      else k :: firstDedupAux rest (seen ++ [k])

/-- First-occurrence deduplication of a key list. -/
def firstDedup (l : List PyVal) : List PyVal :=
  firstDedupAux l []

/-- Spec-side (C6): the record of one path: its operations in occurrence
order, the first occurrence's timestamp and the last occurrence's
timestamp. -/
def specEntry (ws : List (PyVal × PyVal × PyVal)) (k : PyVal) : FileRec :=
  let os := ws.filter (fun w => PyVal.scalarEq w.1 k)
  { file := k
    operations := os.map (fun w => w.2.1)
    first_modified := (os.map (fun w => w.2.2)).headD (.str "")
    last_modified := (os.map (fun w => w.2.2)).getLastD (.str "") }

/-- The claim C6 as stated: one entry per distinct path in
first-occurrence order, carrying all its operations and its first/last
timestamps. -/
def modifiedFilesSpec (messages : List Message) : List FileRec :=
  let ws := writeOccs messages
  (firstDedup (ws.map (fun w => w.1))).map (specEntry ws)

/-- Whether one `tool_use` message goes through `get_modified_files`'s
loop body without raising: a write-class tool needs a mapping input
whose truthy `file_path` (if any) is hashable. -/
def gmfMsgOk (m : Message) : Bool :=
  if m.toolD.isStrVal "Write" || m.toolD.isStrVal "Edit" || m.toolD.isStrVal "MultiEdit" then
    match m.inputD with
    | .dict kvs =>
        let fp := PyVal.dictGet kvs "file_path" (.str "")
        !fp.truthy || fp.hashable
    | _ => false
  else true

/-- Whether `get_modified_files` completes without raising on the given
messages. -/
def gmfErrFree (messages : List Message) : Bool :=
  (messages.filter (fun m => m.isToolUse)).all gmfMsgOk

/-- The pure dict fold underlying `gmfLoop` on the error-free path. -/
def dictFold : List (PyVal × PyVal × PyVal) → List (PyVal × FileRec) → List (PyVal × FileRec)
  | [], d => d
  | (fp, tool, ts) :: rest, d => dictFold rest (gmfUpdate d fp tool ts)

/-! ## Supporting lemmas -/

/-- Filtering a list by a predicate and by its negation partitions it. -/
theorem length_filter_partition {α : Type} (l : List α) (p : α → Bool) :
    (l.filter p).length + (l.filter (fun a => !p a)).length = l.length := by
  induction l with
  | nil => rfl
  | cons a l ih =>
      by_cases h : p a = true <;>
        simp [List.filter_cons, h, ← ih] <;> omega

/-! ## Claim theorems -/

/-- Claim **C3** (code bug): the Text Extractor is claimed to return a string
and never raise for any input shape, including a heterogeneous list
mixing records and scalars; but on the list
`[{"type": "text", "text": "hello"}, 5]` the source takes the
block-records branch (the first element is a dict) and then calls
`.get` on the integer element, raising `AttributeError`. -/
theorem C3_flatten_raises_on_mixed_list :
    extract_text_content (.list [.dict [("type", .str "text"), ("text", .str "hello")], .int 5])
      = .error "AttributeError" := rfl

/-- Claim **C9** (confirmed): `analyze_session []` returns a report with all
eight facets present and empty/default; in particular
`session_duration = "Unknown"` and `success_rate = "N/A"`.  Total by
construction — no exception is modelled or possible. -/
theorem C9_empty_input :
    analyze_session [] =
      { session_goal := "No clear objective identified"
        files_modified := []
        problems_solved := []
        key_decisions := []
        technologies_used := []
        session_metrics :=
          { total_messages := 0, user_messages := 0, assistant_messages := 0,
            tools_used := 0, successful_operations := 0, failed_operations := 0,
            success_rate := "N/A", session_duration := "Unknown" }
        learning_outcomes := []
        follow_up_items := [] } := rfl

/-- Claim **C10** (confirmed): the metrics partition the tool results exactly —
`successful_operations + failed_operations` is the number of
`tool_result` messages, and `successful_operations` counts exactly the
`tool_result` messages whose `error` field is falsy. -/
theorem C10_partition (messages : List Message) :
    (calculate_metrics messages).successful_operations
        + (calculate_metrics messages).failed_operations
      = (messages.filter (fun m => m.isToolResult)).length ∧
    (calculate_metrics messages).successful_operations
      = ((messages.filter (fun m => m.isToolResult)).filter (fun t => !t.errorD.truthy)).length := by
  refine ⟨?_, rfl⟩
  have h := length_filter_partition (messages.filter (fun m => m.isToolResult))
    (fun t => !t.errorD.truthy)
  simp only [Bool.not_not] at h
  exact h

/-- The concrete scenario of C7: ten `tool_result` messages, seven of
them with `is_error = false`. -/
def exC7 : List Message :=
  (List.replicate 7 (Message.tool_result (.str "") "" (.bool false) (.str "") (.str "") (.str "")))
    ++ (List.replicate 3 (Message.tool_result (.str "") "" (.bool true) (.str "") (.str "") (.str "")))

/-- Claim **C7** (confirmed): with at least one `tool_result`, `success_rate`
is `successful / max(total, 1) * 100` formatted to one decimal place as
a percentage (binary64 semantics, exactly as CPython computes it); with
none it is the literal `"N/A"`; and the 7-of-10 scenario yields
`"70.0%"`. -/
theorem C7_success_rate :
    (∀ messages : List Message,
      (0 < (messages.filter (fun m => m.isToolResult)).length →
        (calculate_metrics messages).success_rate
          = formatPercent (calculate_metrics messages).successful_operations
              (messages.filter (fun m => m.isToolResult)).length) ∧
      ((messages.filter (fun m => m.isToolResult)).length = 0 →
        (calculate_metrics messages).success_rate = "N/A")) ∧
    (calculate_metrics exC7).success_rate = "70.0%" := by
  refine ⟨fun messages => ⟨fun h => ?_, fun h => ?_⟩, rfl⟩
  · show (if !(messages.filter (fun m => m.isToolResult)).isEmpty then _ else _) = _
    have he : (messages.filter (fun m => m.isToolResult)).isEmpty = false := by
      cases hl : messages.filter (fun m => m.isToolResult) with
      | nil => rw [hl] at h; simp at h
      | cons a t => rfl
    rw [he]
    rfl
  · show (if !(messages.filter (fun m => m.isToolResult)).isEmpty then _ else _) = _
    rw [List.length_eq_zero] at h
    rw [h]
    rfl

/-- Claim **C7 witness**: the theorem applied at the 7-of-10 scenario and at
the empty sequence. -/
theorem C7_success_rate_witness :
    (calculate_metrics exC7).success_rate = formatPercent 7 10 ∧
    (calculate_metrics []).success_rate = "N/A" :=
  ⟨(C7_success_rate.1 exC7).1 (by decide), (C7_success_rate.1 []).2 rfl⟩

/-- Claim **C5** (confirmed): every `tool_result` entry the parser stores
carries as `output` the stringified raw output truncated to its first
500 characters: the stored value is `str(output)[:500]`, its length
never exceeds 500, it is literally the 500-character prefix of the
stringification, and when the stringification is longer than 500
characters the stored value has exactly 500 characters. -/
theorem C5_truncation (kvs : List (String × PyVal))
    (h : PyVal.dictGet kvs "type" (.str "") = .str "tool_result") :
    processEntry (.dict kvs)
      = .ok (some (.tool_result (PyVal.dictGet kvs "toolName" (.str ""))
          (strTake (pyStr (PyVal.dictGet kvs "output" (.str ""))) 500)
          (PyVal.dictGet kvs "isError" (.bool false)) (PyVal.dictGet kvs "timestamp" (.str ""))
          (PyVal.dictGet kvs "uuid" (.str "")) (PyVal.dictGet kvs "sessionId" (.str "")))) ∧
    (strTake (pyStr (PyVal.dictGet kvs "output" (.str ""))) 500).length ≤ 500 ∧
    (strTake (pyStr (PyVal.dictGet kvs "output" (.str ""))) 500).data
      = (pyStr (PyVal.dictGet kvs "output" (.str ""))).data.take 500 ∧
    (500 ≤ (pyStr (PyVal.dictGet kvs "output" (.str ""))).length →
      (strTake (pyStr (PyVal.dictGet kvs "output" (.str ""))) 500).length = 500) := by
  refine ⟨?_, ?_, rfl, fun hl => ?_⟩
  · show (processEntry (.dict kvs)) = _
    simp only [processEntry, h]
    rfl
  · show ((pyStr (PyVal.dictGet kvs "output" (.str ""))).data.take 500).length ≤ 500
    simp [List.length_take]
  · show ((pyStr (PyVal.dictGet kvs "output" (.str ""))).data.take 500).length = 500
    have : (pyStr (PyVal.dictGet kvs "output" (.str ""))).data.length
        = (pyStr (PyVal.dictGet kvs "output" (.str ""))).length := rfl
    simp [List.length_take]
    omega

/-- The concrete `tool_result` entry of the C5 witness: a 600-character
output. -/
def exC5 : List (String × PyVal) :=
  [("type", .str "tool_result"), ("output", .str (String.mk (List.replicate 600 'a')))]

/-- Claim **C5 witness**: the theorem applied to a concrete entry whose output
stringifies to 600 characters; the stored output has exactly 500. -/
theorem C5_truncation_witness :
    processEntry (.dict exC5)
      = .ok (some (.tool_result (PyVal.dictGet exC5 "toolName" (.str ""))
          (strTake (pyStr (PyVal.dictGet exC5 "output" (.str ""))) 500)
          (PyVal.dictGet exC5 "isError" (.bool false)) (PyVal.dictGet exC5 "timestamp" (.str ""))
          (PyVal.dictGet exC5 "uuid" (.str "")) (PyVal.dictGet exC5 "sessionId" (.str "")))) ∧
    (strTake (pyStr (PyVal.dictGet exC5 "output" (.str ""))) 500).length = 500 :=
  ⟨(C5_truncation exC5 rfl).1, (C5_truncation exC5 rfl).2.2.2 (by decide)⟩

/-- Splitting a successful `Except` bind. -/
theorem exceptBind_ok {α β : Type} {x : Except String α} {f : α → Except String β} {r : β}
    (h : (x >>= f) = .ok r) : ∃ a, x = .ok a ∧ f a = .ok r := by
  cases x with
  | error e => simp [Bind.bind, Except.bind] at h
  | ok a => exact ⟨a, rfl, by simpa [Bind.bind, Except.bind] using h⟩

/-- The keyword loop of decisions/learnings adds at most one entry per
step and stops at the cap, so it never exceeds it. -/
theorem sentKwLoop_length_le (minLen cap : Nat) (c cl : String) :
    ∀ (kws : List String) (acc : List String), acc.length < cap →
      (sentKwLoop minLen cap c cl kws acc).length ≤ cap := by
  intro kws
  induction kws with
  | nil => intro acc h; simpa [sentKwLoop] using Nat.le_of_lt h
  | cons kw kws ih =>
      intro acc h
      rw [sentKwLoop]
      by_cases hsub : strHasSub cl kw = true
      · rw [if_pos hsub]
        have hlen : ∀ acc' : List String, acc'.length ≤ acc.length + 1 →
            (if cap ≤ acc'.length then acc'
             else sentKwLoop minLen cap c cl kws acc').length ≤ cap := by
          intro acc' ha
          by_cases hc : cap ≤ acc'.length
          · rw [if_pos hc]; omega
          · rw [if_neg hc]; exact ih acc' (by omega)
        cases hfs : firstSentenceWith (splitDot c) kw with
        | none => exact hlen acc (by omega)
        | some s =>
            by_cases hml : minLen < (pyStrip s).length
            · simpa [hml] using hlen (acc ++ [strTake (pyStrip s) 200]) (by simp)
            · simpa [hml] using hlen acc (by omega)
      · rw [if_neg hsub]
        exact ih acc h

/-- The message loop of decisions/learnings never exceeds the cap. -/
theorem sentMsgLoop_length_le (minLen cap : Nat) (keywords : List String) :
    ∀ (l : List Message) (acc : List String) (r : List String), acc.length < cap →
      sentMsgLoop minLen cap keywords l acc = .ok r → r.length ≤ cap := by
  intro l
  induction l with
  | nil =>
      intro acc r h hr
      rw [sentMsgLoop] at hr
      cases hr
      omega
  | cons m rest ih =>
      intro acc r h hr
      rw [sentMsgLoop] at hr
      obtain ⟨content, hc, hr2⟩ := exceptBind_ok hr
      have hk := sentKwLoop_length_le minLen cap content (strLower content) keywords acc h
      set acc' := sentKwLoop minLen cap content (strLower content) keywords acc with hacc
      by_cases hcap : cap ≤ acc'.length
      · simp only [if_pos hcap, Except.ok.injEq] at hr2
        exact hr2 ▸ hk
      · simp only [if_neg hcap] at hr2
        exact ih acc' r (by omega) hr2

/-- Claim **C8** (confirmed): the facet caps hold for every input —
`solved_problems` at most 5, `key_decisions` at most 5, `learnings` at
most 3, `follow_ups` at most 5. -/
theorem C8_caps (messages : List Message) :
    (identify_solutions messages).length ≤ 5 ∧
    (extract_decisions messages).length ≤ 5 ∧
    (extract_learnings messages).length ≤ 3 ∧
    (identify_follow_ups messages).length ≤ 5 := by
  refine ⟨?_, ?_, ?_, ?_⟩
  · unfold identify_solutions
    cases hb : identifySolutionsBody messages with
    | error e => simp
    | ok r =>
        unfold identifySolutionsBody at hb
        obtain ⟨ps, hp, hb2⟩ := exceptBind_ok hb
        obtain ⟨sols, hs, hb3⟩ := exceptBind_ok hb2
        simp only [Pure.pure, Except.pure, Except.ok.injEq] at hb3
        simp [← hb3, List.length_take]
  · unfold extract_decisions
    cases hb : sentMsgLoop 20 5 decision_keywords (messages.filter (fun m => m.isAssistant)) [] with
    | error e => simp
    | ok r =>
        simpa using sentMsgLoop_length_le 20 5 decision_keywords _ [] r (by norm_num) hb
  · unfold extract_learnings
    cases hb : sentMsgLoop 15 3 learning_keywords (messages.filter (fun m => m.isAssistant)) [] with
    | error e => simp
    | ok r =>
        simpa using sentMsgLoop_length_le 15 3 learning_keywords _ [] r (by norm_num) hb
  · unfold identify_follow_ups
    cases hb : identifyFollowUpsBody messages with
    | error e => simp
    | ok r =>
        unfold identifyFollowUpsBody at hb
        obtain ⟨fu, hf, hb2⟩ := exceptBind_ok hb
        simp only [Pure.pure, Except.pure, Except.ok.injEq] at hb2
        simp [← hb2, List.length_take]

/-- Characters with equal code points are equal. -/
theorem char_eq_of_toNat_eq {a b : Char} (h : a.toNat = b.toNat) : a = b := by
  have hv : a.val = b.val := UInt32.toNat.inj h
  exact Char.ext hv

/-- The code-point order on character lists is asymmetric. -/
theorem strLtChars_asymm : ∀ a b : List Char, strLtChars a b = true → strLtChars b a = false := by
  intro a
  induction a with
  | nil =>
      intro b h
      cases b with
      | nil => simp [strLtChars] at h
      | cons y ys => rfl
  | cons x xs ih =>
      intro b h
      cases b with
      | nil => simp [strLtChars] at h
      | cons y ys =>
          rw [strLtChars] at h
          rw [strLtChars]
          by_cases hxy : (x == y) = true
          · have hyx : (y == x) = true := by
              have := eq_of_beq hxy
              simp [this]
            rw [if_pos hxy] at h
            rw [if_pos hyx]
            exact ih ys h
          · have hyx : (y == x) = false := by
              rcases Bool.eq_false_or_eq_true (y == x) with h' | h'
              · exact absurd (beq_of_eq (eq_of_beq h').symm) hxy
              · exact h'
            rw [if_neg hxy] at h
            rw [hyx]
            simp only [Bool.false_eq_true, if_false]
            simp only [decide_eq_true_eq] at h
            simpa using Nat.lt_asymm h
  
/-- The code-point order on character lists is transitive. -/
theorem strLtChars_trans : ∀ a b c : List Char,
    strLtChars a b = true → strLtChars b c = true → strLtChars a c = true := by
  intro a
  induction a with
  | nil =>
      intro b c h1 h2
      cases b with
      | nil => simp [strLtChars] at h1
      | cons y ys =>
          cases c with
          | nil => simp [strLtChars] at h2
          | cons z zs => rfl
  | cons x xs ih =>
      intro b c h1 h2
      cases b with
      | nil => simp [strLtChars] at h1
      | cons y ys =>
          cases c with
          | nil => simp [strLtChars] at h2
          | cons z zs =>
              rw [strLtChars] at h1 h2 ⊢
              by_cases hxy : (x == y) = true
              · have hx := eq_of_beq hxy
                subst hx
                rw [if_pos hxy] at h1
                by_cases hyz : (x == z) = true
                · rw [if_pos hyz] at h2
                  rw [if_pos hyz]
                  exact ih ys zs h1 h2
                · rw [if_neg hyz] at h2
                  rw [if_neg hyz]
                  exact h2
              · rw [if_neg hxy] at h1
                simp only [decide_eq_true_eq] at h1
                by_cases hyz : (y == z) = true
                · have hy := eq_of_beq hyz
                  subst hy
                  rw [if_neg hxy]
                  simpa using h1
                · rw [if_neg hyz] at h2
                  simp only [decide_eq_true_eq] at h2
                  have hxz : x.toNat < z.toNat := Nat.lt_trans h1 h2
                  by_cases hxzb : (x == z) = true
                  · exact absurd (congrArg Char.toNat (eq_of_beq hxzb)) (by omega)
                  · rw [if_neg hxzb]
                    simpa using hxz

/-- Two character lists that are each not below the other are equal. -/
theorem strLtChars_conn : ∀ a b : List Char,
    strLtChars a b = false → strLtChars b a = false → a = b := by
  intro a
  induction a with
  | nil =>
      intro b h1 h2
      cases b with
      | nil => rfl
      | cons y ys => simp [strLtChars] at h1
  | cons x xs ih =>
      intro b h1 h2
      cases b with
      | nil => simp [strLtChars] at h2
      | cons y ys =>
          rw [strLtChars] at h1 h2
          by_cases hxy : (x == y) = true
          · have hx := eq_of_beq hxy
            subst hx
            rw [if_pos hxy] at h1
            rw [if_pos (by simp : (x == x) = true)] at h2
            rw [ih ys h1 h2]
          · have hyx : (y == x) = false := by
              rcases Bool.eq_false_or_eq_true (y == x) with h' | h'
              · exact absurd (beq_of_eq (eq_of_beq h').symm) hxy
              · exact h'
            rw [if_neg hxy] at h1
            rw [hyx] at h2
            simp only [Bool.false_eq_true, if_false, decide_eq_true_eq] at h1 h2
            simp only [decide_eq_false_iff_not] at h1 h2
            have : x.toNat = y.toNat := by omega
            exact absurd (char_eq_of_toNat_eq this) (by simpa using hxy)

instance : IsTrans String StrLe where
  trans := by
    intro a b c hab hbc
    simp only [StrLe, strLeB, Bool.not_eq_true'] at hab hbc ⊢
    by_cases hca : strLtChars c.data a.data = true
    · by_cases hab' : strLtChars a.data b.data = true
      · exact absurd (strLtChars_trans _ _ _ hca hab') (by simp [hbc])
      · have := strLtChars_conn _ _ (by simpa using hab') hab
        rw [this] at hca
        exact absurd hca (by simp [hbc])
    · simpa using hca

instance : IsTotal String StrLe where
  total := by
    intro a b
    simp only [StrLe, strLeB, Bool.not_eq_true']
    by_cases h : strLtChars b.data a.data = true
    · exact Or.inr (strLtChars_asymm _ _ h)
    · exact Or.inl (by simpa using h)

/-- Adding to the technologies set preserves distinctness. -/
theorem setAdd_nodup (l : List String) (x : String) (h : l.Nodup) : (setAdd l x).Nodup := by
  unfold setAdd
  by_cases hc : l.contains x = true
  · rw [if_pos hc]; exact h
  · rw [if_neg hc]
    have hx : x ∉ l := by simpa using hc
    simp [List.nodup_append, h, hx]

/-- The vocabulary-mention loop preserves distinctness. -/
theorem techMentionLoop_nodup (ac : String) :
    ∀ (ts : List String) (techs : List String), techs.Nodup → (techMentionLoop ac ts techs).Nodup := by
  intro ts
  induction ts with
  | nil => intro techs h; simpa [techMentionLoop] using h
  | cons t ts ih =>
      intro techs h
      rw [techMentionLoop]
      by_cases hs : strHasSub ac t = true
      · rw [if_pos hs]; exact ih _ (setAdd_nodup _ _ h)
      · rw [if_neg hs]; exact ih _ h

/-- The extension loop preserves distinctness. -/
theorem techExtLoop_nodup :
    ∀ (l : List Message) (techs : List String), techs.Nodup →
      ∀ r, techExtLoop l techs = .ok r → r.Nodup := by
  intro l
  induction l with
  | nil =>
      intro techs h r hr
      rw [techExtLoop] at hr
      simp only [Except.ok.injEq] at hr
      exact hr ▸ h
  | cons m rest ih =>
      intro techs h r hr
      rw [techExtLoop] at hr
      obtain ⟨has, hhas, hr2⟩ := exceptBind_ok hr
      by_cases hb : has = true
      · rw [if_pos hb] at hr2
        obtain ⟨fpv, hfpv, hr3⟩ := exceptBind_ok hr2
        obtain ⟨fp, hfp, hr4⟩ := exceptBind_ok hr3
        refine ih _ ?_ r hr4
        split <;> first | exact setAdd_nodup _ _ h | skip
        split <;> first | exact setAdd_nodup _ _ h | skip
        split <;> first | exact setAdd_nodup _ _ h | skip
        split <;> first | exact setAdd_nodup _ _ h | skip
        split <;> first | exact setAdd_nodup _ _ h | exact h
      · rw [if_neg hb] at hr2
        exact ih _ h r hr2

/-- The input of the C4 counterexample: one `Write` of `a.js` and one
user message mentioning "javascript". -/
def exC4 : List Message :=
  [ .tool_use (.str "Write") (.dict [("file_path", .str "a.js")]) (.str "t1") (.str "") (.str ""),
    .user (.str "javascript") (.str "t2") (.str "") (.str "") ]

/-- Claim **C4 counterexample**: on `exC4` the technologies facet contains both
`"JavaScript"` (from the `.js` extension) and `"Javascript"` (from
`'javascript'.title()`) — two distinct case-variants of the same token,
contradicting the claimed dedup invariant. -/
theorem C4_counterexample :
    identify_technologies exC4 = ["Java", "JavaScript", "Javascript"] ∧
    "JavaScript" ≠ "Javascript" ∧
    strLower "JavaScript" = strLower "Javascript" :=
  ⟨rfl, by decide, rfl⟩

/-- Claim **C4 amended**: for every message sequence the technologies facet is
sorted in Python's code-point string order and contains no *exact*
duplicates; case-variant duplicates, however, can occur (see the
counterexample). -/
theorem C4_amended (messages : List Message) :
    List.Sorted StrLe (identify_technologies messages) ∧
    (identify_technologies messages).Nodup := by
  unfold identify_technologies
  cases hb : identifyTechnologiesBody messages with
  | error e => simp
  | ok r =>
      unfold identifyTechnologiesBody at hb
      obtain ⟨ac, hac, hb2⟩ := exceptBind_ok hb
      obtain ⟨techs1, hext, hb3⟩ := exceptBind_ok hb2
      simp only [Pure.pure, Except.pure, Except.ok.injEq] at hb3
      subst hb3
      constructor
      · exact List.sorted_insertionSort StrLe _
      · have h1 : techs1.Nodup := techExtLoop_nodup _ [] (by simp) techs1 hext
        have h2 : (techMentionLoop ac tech_all techs1).Nodup :=
          techMentionLoop_nodup ac tech_all techs1 h1
        exact ((List.perm_insertionSort StrLe _).nodup_iff).2 h2

/-- When every flatten succeeds, the `early_requests` loop computes the
stripped flattened contents longer than 10 characters, in order. -/
theorem earlyRequests_eq :
    ∀ l : List Message,
      (∀ m ∈ l, (extract_text_content m.contentD).isOk = true) →
      earlyRequests l = .ok ((l.map (fun m => pyStrip (flattenD m.contentD))).filter
        (fun c => !c.isEmpty && 10 < c.length)) := by
  intro l
  induction l with
  | nil => intro _; rfl
  | cons m rest ih =>
      intro h
      have hm := h m (by simp)
      cases hc : extract_text_content m.contentD with
      | error e => rw [hc] at hm; simp [Except.isOk, Except.toBool] at hm
      | ok s =>
          rw [earlyRequests, hc]
          simp only [Bind.bind, Except.bind]
          rw [ih (fun m' hm' => h m' (by simp [hm']))]
          simp only [Pure.pure, Except.pure, Except.ok.injEq]
          have hf : flattenD m.contentD = s := by rw [flattenD, hc]
          rw [List.map_cons, List.filter_cons, hf]

/-- Claim **C2 amended**: goal extraction takes the *first 3* user messages
among the first 10 and only then discards those whose stripped flattened
content has at most 10 characters (rather than filtering before taking
3); the keyword context window is
`words[max(0, i-2) : min(len(words), i+8)]`.  Equivalence holds whenever
the relevant contents flatten without an exception. -/
theorem C2_amended (messages : List Message)
    (h : ∀ m ∈ ((messages.take 10).filter (fun m => m.isUser)).take 3,
      (extract_text_content m.contentD).isOk = true) :
    extract_main_objective messages = mainObjectiveAmended messages := by
  have hbody : extractMainObjectiveBody messages = .ok (mainObjectiveAmended messages) := by
    unfold extractMainObjectiveBody mainObjectiveAmended
    by_cases hu : ((messages.take 10).filter (fun m => m.isUser)).isEmpty = true
    · rw [if_pos hu]
      rw [List.isEmpty_iff.mp hu]
      rfl
    · rw [if_neg hu]
      simp only [Bind.bind, Except.bind]
      rw [earlyRequests_eq _ h]
      cases hq : ((((messages.take 10).filter (fun m => m.isUser)).take 3).map
          (fun m => pyStrip (flattenD m.contentD))).filter (fun c => !c.isEmpty && 10 < c.length) with
      | nil => rfl
      | cons hh tt =>
          simp only [Pure.pure, Except.pure]
          cases goalWindows (splitWs (strLower (maxByLen hh tt))) with
          | nil => rfl
          | cons g gs => rfl
  unfold extract_main_objective
  rw [hbody]

/-- The input of the C2 counterexample: three short user messages
followed by a long one carrying a goal keyword. -/
def exC2 : List Message :=
  [ .user (.str "short one") (.str "") (.str "") (.str ""),
    .user (.str "tiny") (.str "") (.str "") (.str ""),
    .user (.str "also sm") (.str "") (.str "") (.str ""),
    .user (.str "please create a parser for the transcript files now") (.str "") (.str "") (.str "") ]

/-- Claim **C2 counterexample**: the claim (filter the short messages out
first, then take up to 3 qualifying ones) finds the fourth user message
and returns a goal, but the source takes the first 3 user messages
before discarding short ones and returns the no-objective string. -/
theorem C2_counterexample :
    extract_main_objective exC2 = "No clear objective identified" ∧
    mainObjectiveClaim exC2 = "Primary goal: please create a parser for the transcript files now" ∧
    extract_main_objective exC2 ≠ mainObjectiveClaim exC2 :=
  ⟨rfl, rfl, by decide⟩

/-- The input of the C2 witness: one substantial user message. -/
def exC2w : List Message :=
  [ .user (.str "please help me fix the login bug in auth module") (.str "") (.str "") (.str "") ]

/-- Claim **C2 amended witness**: the amended theorem applied at a concrete
input (all hypotheses discharged by evaluation). -/
theorem C2_amended_witness :
    extract_main_objective exC2w = mainObjectiveAmended exC2w :=
  C2_amended exC2w (by decide)

/-- The function `_process_entry`, classified against the spec-side line description:
a non-poison decoded line yields exactly `lineMsgSpec` of it; a poison
line raises. -/
theorem processEntry_cases (v : PyVal) :
    (linePoison (.json v) = false ∧ processEntry v = .ok (lineMsgSpec (.json v))) ∨
    (linePoison (.json v) = true ∧ ∃ e, processEntry v = .error e) := by
  cases v with
  | str s => exact Or.inr ⟨rfl, "AttributeError", rfl⟩
  | int n => exact Or.inr ⟨rfl, "AttributeError", rfl⟩
  | bool b => exact Or.inr ⟨rfl, "AttributeError", rfl⟩
  | none => exact Or.inr ⟨rfl, "AttributeError", rfl⟩
  | list xs => exact Or.inr ⟨rfl, "AttributeError", rfl⟩
  | dict kvs =>
      by_cases hu : (PyVal.dictGet kvs "type" (.str "")).isStrVal "user" = true
      · cases hm : PyVal.lookup kvs "message" with
        | none =>
            exact Or.inl ⟨by simp [linePoison, hm, hu],
              by simp [processEntry, lineMsgSpec, entryMsgSpec, hm, hu]⟩
        | some w =>
            cases w with
            | dict m =>
                exact Or.inl ⟨by simp [linePoison, hm, hu, PyVal.isDict],
                  by simp [processEntry, lineMsgSpec, entryMsgSpec, hm, hu]⟩
            | str s' =>
                exact Or.inr ⟨by simp [linePoison, hm, hu, PyVal.isDict], "AttributeError",
                  by simp [processEntry, hm, hu]⟩
            | int n =>
                exact Or.inr ⟨by simp [linePoison, hm, hu, PyVal.isDict], "AttributeError",
                  by simp [processEntry, hm, hu]⟩
            | bool b =>
                exact Or.inr ⟨by simp [linePoison, hm, hu, PyVal.isDict], "AttributeError",
                  by simp [processEntry, hm, hu]⟩
            | none =>
                exact Or.inr ⟨by simp [linePoison, hm, hu, PyVal.isDict], "AttributeError",
                  by simp [processEntry, hm, hu]⟩
            | list xs =>
                exact Or.inr ⟨by simp [linePoison, hm, hu, PyVal.isDict], "AttributeError",
                  by simp [processEntry, hm, hu]⟩
      · rw [Bool.not_eq_true] at hu
        by_cases ha : (PyVal.dictGet kvs "type" (.str "")).isStrVal "assistant" = true
        · cases hm : PyVal.lookup kvs "message" with
          | none =>
              exact Or.inl ⟨by simp [linePoison, hm, hu, ha],
                by simp [processEntry, lineMsgSpec, entryMsgSpec, hm, hu, ha]⟩
          | some w =>
              cases w with
              | dict m =>
                  exact Or.inl ⟨by simp [linePoison, hm, hu, ha, PyVal.isDict],
                    by simp [processEntry, lineMsgSpec, entryMsgSpec, hm, hu, ha]⟩
              | str s' =>
                  exact Or.inr ⟨by simp [linePoison, hm, hu, ha, PyVal.isDict], "AttributeError",
                    by simp [processEntry, hm, hu, ha]⟩
              | int n =>
                  exact Or.inr ⟨by simp [linePoison, hm, hu, ha, PyVal.isDict], "AttributeError",
                    by simp [processEntry, hm, hu, ha]⟩
              | bool b =>
                  exact Or.inr ⟨by simp [linePoison, hm, hu, ha, PyVal.isDict], "AttributeError",
                    by simp [processEntry, hm, hu, ha]⟩
              | none =>
                  exact Or.inr ⟨by simp [linePoison, hm, hu, ha, PyVal.isDict], "AttributeError",
                    by simp [processEntry, hm, hu, ha]⟩
              | list xs =>
                  exact Or.inr ⟨by simp [linePoison, hm, hu, ha, PyVal.isDict], "AttributeError",
                    by simp [processEntry, hm, hu, ha]⟩
        · rw [Bool.not_eq_true] at ha
          refine Or.inl ⟨by simp [linePoison, hu, ha], ?_⟩
          by_cases htu : (PyVal.dictGet kvs "type" (.str "")).isStrVal "tool_use" = true
          · simp [processEntry, lineMsgSpec, entryMsgSpec, hu, ha, htu]
          · rw [Bool.not_eq_true] at htu
            by_cases htr : (PyVal.dictGet kvs "type" (.str "")).isStrVal "tool_result" = true
            · simp [processEntry, lineMsgSpec, entryMsgSpec, hu, ha, htu, htr]
            · rw [Bool.not_eq_true] at htr
              simp [processEntry, lineMsgSpec, entryMsgSpec, hu, ha, htu, htr]

/-- The scan of `parse_transcript` equals the declarative description:
the messages of the longest poison-free prefix of the file, one per
line as given by `lineMsgSpec`, in original order. -/
theorem parseLines_eq (lines : List RawLine) :
    parseLines lines = (lines.takeWhile (fun l => !linePoison l)).filterMap lineMsgSpec := by
  induction lines with
  | nil => rfl
  | cons l rest ih =>
      cases l with
      | blank => simpa [parseLines, List.takeWhile_cons, linePoison, lineMsgSpec] using ih
      | bad => simpa [parseLines, List.takeWhile_cons, linePoison, lineMsgSpec] using ih
      | json v =>
          rcases processEntry_cases v with ⟨hp, hok⟩ | ⟨hp, e, herr⟩
          · rw [parseLines, hok]
            cases hs : lineMsgSpec (.json v) with
            | none => simp [List.takeWhile_cons, hp, hs, ih]
            | some m => simp [List.takeWhile_cons, hp, hs, ih]
          · rw [parseLines, herr]
            simp [List.takeWhile_cons, hp]

/-- Claim **C1 amended**: `parse` (which is total — no exception escapes, and a
missing file yields the empty sequence) returns, in original order with
no reordering or deduplication, one normalized message per line of the
longest *poison-free prefix* of the file, where a line produces a
message exactly when it decodes to a mapping whose discriminator is
`tool_use` or `tool_result`, or is `user`/`assistant` with a `message`
field holding a mapping; blank lines, undecodable lines, lines with any
other or missing discriminator, and `user`/`assistant` lines without a
`message` field produce no message; at the first *poison* line — a
decoded non-mapping line, or a `user`/`assistant` line whose `message`
field is present but not a mapping — the internal `AttributeError` is
caught by the outer handler, which returns the messages collected so far
and drops all later lines. -/
theorem C1_amended :
    (∀ lines : List RawLine,
      parse_transcript (some lines)
        = (lines.takeWhile (fun l => !linePoison l)).filterMap lineMsgSpec) ∧
    parse_transcript Option.none = [] :=
  ⟨fun lines => parseLines_eq lines, rfl⟩

/-- The C1 counterexample line: valid JSON, recognised discriminator
`user`, but no `message` field. -/
def exC1 : PyVal := .dict [("type", .str "user")]

/-- Claim **C1 counterexample**: a decodable line carrying the recognised
discriminator `user` for which `parse` produces *no* normalized message,
refuting "exactly one Normalized Message per line that decodes as valid
structured data and carries one of the four recognized
discriminators". -/
theorem C1_counterexample :
    recognizedDiscriminator exC1 = true ∧
    (parse_transcript (some [RawLine.json exC1])).length = 0 :=
  ⟨rfl, rfl⟩

/-- Values that compare equal under Python `==` on hashable scalars are
equal. -/
theorem scalarEq_eq {a b : PyVal} (h : PyVal.scalarEq a b = true) : a = b := by
  cases a <;> cases b <;> simp_all [PyVal.scalarEq]

/-- A hashable value compares equal to itself. -/
theorem scalarEq_refl {a : PyVal} (h : a.hashable = true) : PyVal.scalarEq a a = true := by
  cases a <;> simp_all [PyVal.scalarEq, PyVal.hashable]

/-- The relation `scalarEq` is symmetric. -/
theorem scalarEq_symm (a b : PyVal) : PyVal.scalarEq a b = PyVal.scalarEq b a := by
  cases a <;> cases b <;> simp [PyVal.scalarEq, eq_comm]

/-- Key membership over an appended key. -/
theorem memS_append (l : List PyVal) (x y : PyVal) :
    memS (l ++ [x]) y = (memS l y || PyVal.scalarEq x y) := by
  simp [memS, List.any_append]

/-- A key equal to a member is a member. -/
theorem memS_of_memS_scalarEq {seen : List PyVal} {k x : PyVal}
    (h1 : memS seen k = true) (h2 : PyVal.scalarEq k x = true) : memS seen x = true := by
  rw [← scalarEq_eq h2]
  exact h1

/-- Processing an appended key: it survives deduplication exactly when no
earlier key (seen or in the list) matches it. -/
theorem firstDedupAux_append :
    ∀ (l : List PyVal) (x : PyVal) (seen : List PyVal),
      firstDedupAux (l ++ [x]) seen
        = firstDedupAux l seen ++ (if memS seen x || memS l x then [] else [x]) := by
  intro l
  induction l with
  | nil =>
      intro x seen
      simp [firstDedupAux, memS]
  | cons k l ih =>
      intro x seen
      rw [List.cons_append, firstDedupAux]
      by_cases hk : memS seen k = true
      · rw [if_pos hk, ih, firstDedupAux, if_pos hk]
        have hcond : (memS seen x || memS l x) = (memS seen x || memS (k :: l) x) := by
          by_cases hkx : PyVal.scalarEq k x = true
          · have hx : memS seen x = true := memS_of_memS_scalarEq hk hkx
            rw [hx]
            simp
          · rw [Bool.not_eq_true] at hkx
            simp only [memS, List.any_cons]
            rw [hkx]
            simp
        rw [hcond]
      · rw [if_neg hk, ih, firstDedupAux, if_neg hk, List.cons_append]
        have hcond : (memS (seen ++ [k]) x || memS l x) = (memS seen x || memS (k :: l) x) := by
          rw [memS_append]
          simp only [memS, List.any_cons]
          rw [Bool.or_assoc]
        rw [hcond]

/-- Deduplication over an empty tail. -/
theorem firstDedup_append (l : List PyVal) (x : PyVal) :
    firstDedup (l ++ [x]) = firstDedup l ++ (if memS l x then [] else [x]) := by
  unfold firstDedup
  rw [firstDedupAux_append]
  rfl

/-- Members of the deduplicated list match nothing in `seen`. -/
theorem firstDedupAux_not_seen :
    ∀ (l : List PyVal) (seen : List PyVal) (y : PyVal),
      y ∈ firstDedupAux l seen → memS seen y = false := by
  intro l
  induction l with
  | nil => intro seen y hy; simp [firstDedupAux] at hy
  | cons k l ih =>
      intro seen y hy
      rw [firstDedupAux] at hy
      by_cases hk : memS seen k = true
      · rw [if_pos hk] at hy
        exact ih seen y hy
      · rw [if_neg hk] at hy
        rcases List.mem_cons.mp hy with rfl | hy'
        · simpa using hk
        · have := ih (seen ++ [k]) y hy'
          rw [memS_append] at this
          exact (Bool.or_eq_false_iff.mp this).1

/-- Members of the deduplicated list come from the list itself. -/
theorem firstDedupAux_subset :
    ∀ (l : List PyVal) (seen : List PyVal) (y : PyVal),
      y ∈ firstDedupAux l seen → y ∈ l := by
  intro l
  induction l with
  | nil => intro seen y hy; simp [firstDedupAux] at hy
  | cons k l ih =>
      intro seen y hy
      rw [firstDedupAux] at hy
      by_cases hk : memS seen k = true
      · rw [if_pos hk] at hy
        exact List.mem_cons_of_mem _ (ih seen y hy)
      · rw [if_neg hk] at hy
        rcases List.mem_cons.mp hy with rfl | hy'
        · exact List.mem_cons_self _ _
        · exact List.mem_cons_of_mem _ (ih (seen ++ [k]) y hy')

/-- Distinct keys of the deduplicated list match nothing later in it. -/
theorem firstDedupAux_pairwise :
    ∀ (l : List PyVal) (seen : List PyVal),
      (firstDedupAux l seen).Pairwise (fun a b => PyVal.scalarEq a b = false) := by
  intro l
  induction l with
  | nil => intro seen; simp [firstDedupAux]
  | cons k l ih =>
      intro seen
      rw [firstDedupAux]
      by_cases hk : memS seen k = true
      · rw [if_pos hk]; exact ih seen
      · rw [if_neg hk]
        refine List.Pairwise.cons ?_ (ih (seen ++ [k]))
        intro y hy
        have := firstDedupAux_not_seen l (seen ++ [k]) y hy
        rw [memS_append] at this
        exact (Bool.or_eq_false_iff.mp this).2

/-- The update `gmfUpdate` on a dict keyed by pairwise-distinct keys: update the
matching entry in place, or append a fresh record. -/
theorem gmfUpdate_keyed (f : PyVal → FileRec) (fp tool ts : PyVal) :
    ∀ KS : List PyVal, KS.Pairwise (fun a b => PyVal.scalarEq a b = false) →
      gmfUpdate (KS.map (fun k => (k, f k))) fp tool ts
        = if memS KS fp then
            KS.map (fun k => (k, if PyVal.scalarEq k fp then
              { f k with operations := (f k).operations ++ [tool], last_modified := ts }
              else f k))
          else KS.map (fun k => (k, f k)) ++ [(fp, ⟨fp, [tool], ts, ts⟩)] := by
  intro KS
  induction KS with
  | nil => intro _; simp [gmfUpdate, memS]
  | cons k ks ih =>
      intro hpw
      obtain ⟨hhead, htail⟩ := List.pairwise_cons.mp hpw
      rw [List.map_cons, gmfUpdate]
      by_cases hk : PyVal.scalarEq k fp = true
      · have hmem : memS (k :: ks) fp = true := by
          simp only [memS, List.any_cons]
          rw [hk]
          simp
        rw [if_pos hk, hmem, if_pos rfl, List.map_cons, if_pos hk]
        congr 1
        refine List.map_eq_map_iff.mpr (fun k' hk' => ?_)
        have hkf : PyVal.scalarEq k' fp = false := by
          by_cases hc : PyVal.scalarEq k' fp = true
          · have e1 : k' = fp := scalarEq_eq hc
            have e2 : k = fp := scalarEq_eq hk
            have : PyVal.scalarEq k k' = true := by
              rw [e1, ← e2]
              rw [← e2] at hk
              exact hk
            exact absurd this (by simp [hhead k' hk'])
          · exact Bool.not_eq_true _ ▸ (by simpa using hc)
        rw [if_neg (by simp [hkf])]
      · have hmem : memS (k :: ks) fp = memS ks fp := by
          simp only [memS, List.any_cons]
          rw [Bool.not_eq_true] at hk
          rw [hk]
          simp
        rw [if_neg hk, ih htail, hmem]
        by_cases hm : memS ks fp = true
        · rw [hm, if_pos rfl, if_pos rfl, List.map_cons, if_neg (by simp [Bool.not_eq_true] at hk ⊢; exact hk)]
        · rw [Bool.not_eq_true] at hm
          rw [hm]
          simp only [Bool.false_eq_true, if_false, List.map_cons, List.cons_append]

/-- Taking `headD` over an append with a non-empty left part. -/
theorem headD_append_left {α : Type} (l l' : List α) (d : α) (h : l ≠ []) :
    (l ++ l').headD d = l.headD d := by
  cases l with
  | nil => exact absurd rfl h
  | cons a t => rfl

/-- A non-matching appended occurrence leaves a path's record
unchanged. -/
theorem specEntry_append_ne (ws : List (PyVal × PyVal × PyVal)) (fp tool ts k : PyVal)
    (h : PyVal.scalarEq fp k = false) :
    specEntry (ws ++ [(fp, tool, ts)]) k = specEntry ws k := by
  unfold specEntry
  rw [List.filter_append]
  simp [List.filter_cons, h]

/-- A matching appended occurrence appends its tool to the operations
and becomes the last-seen timestamp; the first-seen timestamp is
unchanged while earlier occurrences exist. -/
theorem specEntry_append_eq (ws : List (PyVal × PyVal × PyVal)) (fp tool ts k : PyVal)
    (h : PyVal.scalarEq fp k = true)
    (hne : ws.filter (fun w => PyVal.scalarEq w.1 k) ≠ []) :
    specEntry (ws ++ [(fp, tool, ts)]) k
      = { specEntry ws k with
            operations := (specEntry ws k).operations ++ [tool]
            last_modified := ts } := by
  have hm : (ws.filter (fun w => PyVal.scalarEq w.1 k)).map (fun w => w.2.2) ≠ [] := by
    intro hc
    exact hne (List.map_eq_nil_iff.mp hc)
  unfold specEntry
  rw [List.filter_append]
  have hf : List.filter (fun w => PyVal.scalarEq w.1 k) [(fp, tool, ts)] = [(fp, tool, ts)] := by
    simp [List.filter_cons, h]
  rw [hf]
  simp only [List.map_append, List.map_cons, List.map_nil]
  rw [List.getLastD_concat, headD_append_left _ _ _ hm]

/-- A matching appended occurrence for a previously unseen path creates
its fresh record. -/
theorem specEntry_append_new (ws : List (PyVal × PyVal × PyVal)) (fp tool ts k : PyVal)
    (h : PyVal.scalarEq fp k = true)
    (hnil : ws.filter (fun w => PyVal.scalarEq w.1 k) = []) :
    specEntry (ws ++ [(fp, tool, ts)]) k = ⟨k, [tool], ts, ts⟩ := by
  unfold specEntry
  rw [List.filter_append, hnil]
  simp [List.filter_cons, h]

/-- Deduplication does not change which keys are matched. -/
theorem memS_firstDedupAux :
    ∀ (l : List PyVal) (seen : List PyVal) (x : PyVal), memS seen x = false →
      memS (firstDedupAux l seen) x = memS l x := by
  intro l
  induction l with
  | nil => intro seen x _; rfl
  | cons k l ih =>
      intro seen x hx
      rw [firstDedupAux]
      by_cases hk : memS seen k = true
      · rw [if_pos hk, ih seen x hx]
        have hkx : PyVal.scalarEq k x = false := by
          by_cases hc : PyVal.scalarEq k x = true
          · exact absurd (memS_of_memS_scalarEq hk hc) (by simp [hx])
          · simpa using hc
        simp only [memS, List.any_cons, hkx]
        simp
      · rw [if_neg hk]
        simp only [memS, List.any_cons]
        by_cases hkx : PyVal.scalarEq k x = true
        · simp [hkx]
        · rw [Bool.not_eq_true] at hkx
          rw [hkx]
          have hseen : memS (seen ++ [k]) x = false := by
            rw [memS_append, hx, hkx]
            rfl
          have := ih (seen ++ [k]) x hseen
          simp only [memS] at this ⊢
          rw [this]

/-- Deduplication does not change which keys are matched (top level). -/
theorem memS_firstDedup (l : List PyVal) (x : PyVal) :
    memS (firstDedup l) x = memS l x :=
  memS_firstDedupAux l [] x rfl

/-- Folding the dict over an appended occurrence is one update of the
folded dict. -/
theorem dictFold_append :
    ∀ (ws : List (PyVal × PyVal × PyVal)) (w : PyVal × PyVal × PyVal)
      (d : List (PyVal × FileRec)),
      dictFold (ws ++ [w]) d = gmfUpdate (dictFold ws d) w.1 w.2.1 w.2.2 := by
  intro ws
  induction ws with
  | nil =>
      intro w d
      obtain ⟨fp, tool, ts⟩ := w
      rfl
  | cons v ws ih =>
      intro w d
      obtain ⟨fp, tool, ts⟩ := v
      rw [List.cons_append, dictFold, dictFold, ih]

/-- Members of the deduplicated list come from the list (top level). -/
theorem firstDedup_subset (l : List PyVal) (y : PyVal) (h : y ∈ firstDedup l) : y ∈ l :=
  firstDedupAux_subset l [] y h

/-- Distinct keys of the deduplicated list match nothing later in it
(top level). -/
theorem firstDedup_pairwise (l : List PyVal) :
    (firstDedup l).Pairwise (fun a b => PyVal.scalarEq a b = false) :=
  firstDedupAux_pairwise l []

/-- The dict built by the error-free loop is exactly the claim-side
description: keys in first-occurrence order, each carrying its
operations in order and its first/last timestamps. -/
theorem dictFold_spec (ws : List (PyVal × PyVal × PyVal)) :
    (∀ p ∈ ws, p.1.hashable = true) →
    dictFold ws []
      = (firstDedup (ws.map (fun w => w.1))).map (fun k => (k, specEntry ws k)) := by
  induction ws using List.reverseRecOn with
  | nil => intro _; rfl
  | append_singleton ws w ih =>
      intro hws
      obtain ⟨fp, tool, ts⟩ := w
      have hws' : ∀ p ∈ ws, p.1.hashable = true := fun p hp => hws p (List.mem_append_left _ hp)
      have hfp : PyVal.hashable fp = true := hws (fp, tool, ts) (List.mem_append_right _ (by simp))
      rw [dictFold_append, ih hws']
      dsimp only
      rw [gmfUpdate_keyed (fun k => specEntry ws k) fp tool ts _
        (firstDedup_pairwise (ws.map (fun w => w.1)))]
      rw [memS_firstDedup]
      have hmapapp : (ws ++ [((fp, tool, ts) : PyVal × PyVal × PyVal)]).map (fun w => w.1)
          = ws.map (fun w => w.1) ++ [fp] := by
        rw [List.map_append]
        rfl
      rw [hmapapp, firstDedup_append]
      by_cases hmem : memS (ws.map (fun w => w.1)) fp = true
      · rw [hmem]
        simp only [if_true, List.append_nil]
        refine List.map_eq_map_iff.mpr (fun k hk => ?_)
        by_cases hkfp : PyVal.scalarEq k fp = true
        · rw [if_pos hkfp]
          have hfpk : PyVal.scalarEq fp k = true := by rw [scalarEq_symm]; exact hkfp
          have hkK : k ∈ ws.map (fun w => w.1) :=
            firstDedup_subset (ws.map (fun w => w.1)) k hk
          obtain ⟨w', hw', hww⟩ := List.mem_map.mp hkK
          have hkh : k.hashable = true := hww ▸ hws' w' hw'
          have hne : ws.filter (fun w0 => PyVal.scalarEq w0.1 k) ≠ [] := by
            refine List.ne_nil_of_mem (a := w') (List.mem_filter.mpr ⟨hw', ?_⟩)
            rw [hww]
            exact scalarEq_refl hkh
          rw [specEntry_append_eq ws fp tool ts k hfpk hne]
        · rw [if_neg hkfp]
          have hfpk : PyVal.scalarEq fp k = false := by
            rw [scalarEq_symm]
            simpa using hkfp
          rw [specEntry_append_ne ws fp tool ts k hfpk]
      · rw [Bool.not_eq_true] at hmem
        rw [hmem]
        simp only [Bool.false_eq_true, if_false]
        rw [List.map_append]
        refine congrArg₂ (· ++ ·) ?_ ?_
        · refine List.map_eq_map_iff.mpr (fun k hk => ?_)
          have hfpk : PyVal.scalarEq fp k = false := by
            by_cases hc : PyVal.scalarEq fp k = true
            · exfalso
              have he : fp = k := scalarEq_eq hc
              have hkK : k ∈ ws.map (fun w => w.1) :=
                firstDedup_subset (ws.map (fun w => w.1)) k hk
              have : memS (ws.map (fun w => w.1)) fp = true := by
                simp only [memS, List.any_eq_true]
                refine ⟨k, hkK, ?_⟩
                rw [he]
                exact scalarEq_refl (he ▸ hfp)
              simp [this] at hmem
            · simpa using hc
          rw [specEntry_append_ne ws fp tool ts k hfpk]
        · have hnil : ws.filter (fun w0 => PyVal.scalarEq w0.1 fp) = [] := by
            rw [List.filter_eq_nil_iff]
            intro w0 hw0
            intro hc
            have : memS (ws.map (fun w => w.1)) fp = true := by
              simp only [memS, List.any_eq_true]
              exact ⟨w0.1, List.mem_map_of_mem _ hw0, hc⟩
            simp [this] at hmem
          simp only [List.map_cons, List.map_nil]
          rw [specEntry_append_new ws fp tool ts fp (scalarEq_refl hfp) hnil]

/-- One error-free step of `get_modified_files`'s loop performs the
occurrence's dict update (or nothing). -/
theorem gmfLoop_step (m : Message) (hm : gmfMsgOk m = true) (rest : List Message)
    (d : List (PyVal × FileRec)) :
    gmfLoop (m :: rest) d
      = gmfLoop rest (match occOf m with
          | some (fp, tool, ts) => gmfUpdate d fp tool ts
          | Option.none => d) := by
  unfold gmfMsgOk at hm
  rw [gmfLoop]
  unfold occOf
  by_cases hw : (m.toolD.isStrVal "Write" || m.toolD.isStrVal "Edit"
      || m.toolD.isStrVal "MultiEdit") = true
  · rw [if_pos hw] at hm
    rw [if_pos hw, if_pos hw]
    cases hi : m.inputD with
    | dict kvs =>
        rw [hi] at hm
        have hm2 : (!(PyVal.dictGet kvs "file_path" (PyVal.str "")).truthy
            || (PyVal.dictGet kvs "file_path" (PyVal.str "")).hashable) = true := hm
        show (if (PyVal.dictGet kvs "file_path" (PyVal.str "")).truthy = true then
                if (PyVal.dictGet kvs "file_path" (PyVal.str "")).hashable = true then
                  gmfLoop rest
                    (gmfUpdate d (PyVal.dictGet kvs "file_path" (PyVal.str "")) m.toolD m.timestamp)
                else Except.error "TypeError"
              else gmfLoop rest d)
            = gmfLoop rest
                (match (if (PyVal.dictGet kvs "file_path" (PyVal.str "")).truthy = true then
                    some ((PyVal.dictGet kvs "file_path" (PyVal.str "")), m.toolD, m.timestamp)
                  else Option.none) with
                | some (fp, tool, ts) => gmfUpdate d fp tool ts
                | Option.none => d)
        by_cases ht : (PyVal.dictGet kvs "file_path" (PyVal.str "")).truthy = true
        · have hh : (PyVal.dictGet kvs "file_path" (PyVal.str "")).hashable = true := by
            rw [ht] at hm2
            simpa using hm2
          rw [if_pos ht, if_pos hh, if_pos ht]
        · rw [Bool.not_eq_true] at ht
          rw [ht]
          simp
    | str s => rw [hi] at hm; exact absurd (show false = true from hm) (by simp)
    | int n => rw [hi] at hm; exact absurd (show false = true from hm) (by simp)
    | bool b => rw [hi] at hm; exact absurd (show false = true from hm) (by simp)
    | none => rw [hi] at hm; exact absurd (show false = true from hm) (by simp)
    | list xs => rw [hi] at hm; exact absurd (show false = true from hm) (by simp)
  · rw [Bool.not_eq_true] at hw
    rw [hw]
    simp

/-- On an error-free message list the loop succeeds and computes the
dict fold of its occurrences. -/
theorem gmfLoop_ok :
    ∀ (l : List Message), l.all gmfMsgOk = true →
      ∀ d, gmfLoop l d = .ok (dictFold (l.filterMap occOf) d) := by
  intro l
  induction l with
  | nil => intro _ d; rfl
  | cons m rest ih =>
      intro hall d
      rw [List.all_cons, Bool.and_eq_true] at hall
      rw [gmfLoop_step m hall.1 rest d, List.filterMap_cons]
      cases ho : occOf m with
      | none => exact ih hall.2 d
      | some w =>
          obtain ⟨fp, tool, ts⟩ := w
          rw [dictFold]
          exact ih hall.2 _

/-- A message list with a bad write-class entry makes the loop raise. -/
theorem gmfLoop_err :
    ∀ (l : List Message), l.all gmfMsgOk = false →
      ∀ d, ∃ e, gmfLoop l d = .error e := by
  intro l
  induction l with
  | nil => intro h d; simp [List.all_nil] at h
  | cons m rest ih =>
      intro hall d
      rw [List.all_cons, Bool.and_eq_false_iff] at hall
      rcases hall with hm | hrest
      · unfold gmfMsgOk at hm
        rw [gmfLoop]
        by_cases hw : (m.toolD.isStrVal "Write" || m.toolD.isStrVal "Edit"
            || m.toolD.isStrVal "MultiEdit") = true
        · rw [if_pos hw] at hm
          rw [if_pos hw]
          cases hi : m.inputD with
          | dict kvs =>
              rw [hi] at hm
              have hm2 : (!(PyVal.dictGet kvs "file_path" (PyVal.str "")).truthy
                  || (PyVal.dictGet kvs "file_path" (PyVal.str "")).hashable) = false := hm
              rw [Bool.or_eq_false_iff] at hm2
              have ht2 : (PyVal.dictGet kvs "file_path" (PyVal.str "")).truthy = true := by
                simpa using hm2.1
              refine ⟨"TypeError", ?_⟩
              show (if (PyVal.dictGet kvs "file_path" (PyVal.str "")).truthy = true then
                      if (PyVal.dictGet kvs "file_path" (PyVal.str "")).hashable = true then
                        gmfLoop rest
                          (gmfUpdate d (PyVal.dictGet kvs "file_path" (PyVal.str "")) m.toolD
                            m.timestamp)
                      else Except.error "TypeError"
                    else gmfLoop rest d)
                  = Except.error "TypeError"
              rw [if_pos ht2, if_neg (by simp [hm2.2])]
          | str s =>
              exact ⟨"AttributeError", rfl⟩
          | int n =>
              exact ⟨"AttributeError", rfl⟩
          | bool b =>
              exact ⟨"AttributeError", rfl⟩
          | none =>
              exact ⟨"AttributeError", rfl⟩
          | list xs =>
              exact ⟨"AttributeError", rfl⟩
        · rw [if_neg hw] at hm
          exact absurd hm (by simp)
      · by_cases hm : gmfMsgOk m = true
        · rw [gmfLoop_step m hm rest d]
          exact ih hrest _
        · rw [Bool.not_eq_true] at hm
          -- the head itself is bad: same as the first case
          unfold gmfMsgOk at hm
          rw [gmfLoop]
          by_cases hw : (m.toolD.isStrVal "Write" || m.toolD.isStrVal "Edit"
              || m.toolD.isStrVal "MultiEdit") = true
          · rw [if_pos hw] at hm
            rw [if_pos hw]
            cases hi : m.inputD with
            | dict kvs =>
                rw [hi] at hm
                have hm2 : (!(PyVal.dictGet kvs "file_path" (PyVal.str "")).truthy
                    || (PyVal.dictGet kvs "file_path" (PyVal.str "")).hashable) = false := hm
                rw [Bool.or_eq_false_iff] at hm2
                have ht2 : (PyVal.dictGet kvs "file_path" (PyVal.str "")).truthy = true := by
                  simpa using hm2.1
                refine ⟨"TypeError", ?_⟩
                show (if (PyVal.dictGet kvs "file_path" (PyVal.str "")).truthy = true then
                        if (PyVal.dictGet kvs "file_path" (PyVal.str "")).hashable = true then
                          gmfLoop rest
                            (gmfUpdate d (PyVal.dictGet kvs "file_path" (PyVal.str "")) m.toolD
                              m.timestamp)
                        else Except.error "TypeError"
                      else gmfLoop rest d)
                    = Except.error "TypeError"
                rw [if_pos ht2, if_neg (by simp [hm2.2])]
            | str s =>
                exact ⟨"AttributeError", rfl⟩
            | int n =>
                exact ⟨"AttributeError", rfl⟩
            | bool b =>
                exact ⟨"AttributeError", rfl⟩
            | none =>
                exact ⟨"AttributeError", rfl⟩
            | list xs =>
                exact ⟨"AttributeError", rfl⟩
          · rw [if_neg hw] at hm
            exact absurd hm (by simp)

/-- On an error-free sequence every write occurrence's path is
hashable. -/
theorem gmfErrFree_hashable (messages : List Message) (he : gmfErrFree messages = true) :
    ∀ p ∈ writeOccs messages, p.1.hashable = true := by
  intro p hp
  obtain ⟨m, hm, ho⟩ := List.mem_filterMap.mp hp
  have hok : gmfMsgOk m = true := by
    rw [gmfErrFree, List.all_eq_true] at he
    exact he m hm
  unfold occOf at ho
  unfold gmfMsgOk at hok
  by_cases hw : (m.toolD.isStrVal "Write" || m.toolD.isStrVal "Edit"
      || m.toolD.isStrVal "MultiEdit") = true
  · rw [if_pos hw] at ho hok
    cases hi : m.inputD with
    | dict kvs =>
        rw [hi] at ho hok
        have hok2 : (!(PyVal.dictGet kvs "file_path" (PyVal.str "")).truthy
            || (PyVal.dictGet kvs "file_path" (PyVal.str "")).hashable) = true := hok
        by_cases ht : (PyVal.dictGet kvs "file_path" (PyVal.str "")).truthy = true
        · have ho2 : (if (PyVal.dictGet kvs "file_path" (PyVal.str "")).truthy = true then
              some ((PyVal.dictGet kvs "file_path" (PyVal.str "")), m.toolD, m.timestamp)
              else Option.none) = some p := ho
          rw [if_pos ht, Option.some.injEq] at ho2
          rw [ht] at hok2
          rw [← ho2]
          simpa using hok2
        · have ho2 : (if (PyVal.dictGet kvs "file_path" (PyVal.str "")).truthy = true then
              some ((PyVal.dictGet kvs "file_path" (PyVal.str "")), m.toolD, m.timestamp)
              else Option.none) = some p := ho
          rw [if_neg ht] at ho2
          exact absurd ho2 (by simp)
    | str s => rw [hi] at ho; exact absurd (show (Option.none : Option _) = some p from ho) (by simp)
    | int n => rw [hi] at ho; exact absurd (show (Option.none : Option _) = some p from ho) (by simp)
    | bool b => rw [hi] at ho; exact absurd (show (Option.none : Option _) = some p from ho) (by simp)
    | none => rw [hi] at ho; exact absurd (show (Option.none : Option _) = some p from ho) (by simp)
    | list xs => rw [hi] at ho; exact absurd (show (Option.none : Option _) = some p from ho) (by simp)
  · rw [if_neg hw] at ho
    exact absurd ho (by simp)

/-- Claim **C6 amended**: whenever the loop completes without raising — every
write-class `tool_use` has a mapping input whose truthy `file_path` is
hashable — the modified-files facet is exactly the claim's description:
one entry per distinct path in first-occurrence order, its operations in
occurrence order, and the first/last occurrence timestamps; when some
write-class entry has a non-mapping input or an unhashable truthy
`file_path`, the raised exception is caught and the whole facet is
`[]`. -/
theorem C6_amended (messages : List Message) :
    get_modified_files messages
      = if gmfErrFree messages = true then modifiedFilesSpec messages else [] := by
  by_cases he : gmfErrFree messages = true
  · rw [if_pos he]
    unfold get_modified_files
    rw [gmfLoop_ok (messages.filter (fun m => m.isToolUse)) he []]
    show (dictFold ((messages.filter (fun m => m.isToolUse)).filterMap occOf) []).map
        (fun p => p.2) = modifiedFilesSpec messages
    have hh : ∀ p ∈ (messages.filter (fun m => m.isToolUse)).filterMap occOf,
        p.1.hashable = true := gmfErrFree_hashable messages he
    rw [dictFold_spec ((messages.filter (fun m => m.isToolUse)).filterMap occOf) hh]
    unfold modifiedFilesSpec writeOccs
    rw [List.map_map]
    rfl
  · rw [if_neg he]
    unfold get_modified_files
    rw [Bool.not_eq_true] at he
    obtain ⟨e, hee⟩ := gmfLoop_err (messages.filter (fun m => m.isToolUse)) he []
    rw [hee]

/-- The input of the C6 counterexample: a `Write` whose `input` is a
string (so `.get` raises and the whole facet collapses), followed by a
well-formed `Write` of `a.py`. -/
def exC6 : List Message :=
  [ .tool_use (.str "Write") (.str "oops") (.str "t1") (.str "") (.str ""),
    .tool_use (.str "Write") (.dict [("file_path", .str "a.py")]) (.str "t2") (.str "") (.str "") ]

/-- Claim **C6 counterexample**: `a.py` appears as a non-empty `file_path`
input of a `Write` tool use, so the claim requires an entry for it; but
the preceding entry's non-mapping input raises inside the loop and the
source returns the empty facet. -/
theorem C6_counterexample :
    get_modified_files exC6 = [] ∧
    modifiedFilesSpec exC6
      = [⟨.str "a.py", [.str "Write"], .str "t2", .str "t2"⟩] :=
  ⟨rfl, rfl⟩
